import Mathlib

/-!
A verification development for the document normalization pipeline: the four
format parsers (PDF, Word, Excel, PowerPoint), the file validator and
extension-based dispatch, the parsed-document data model, and the output
renderer (structured JSON, markup, tabular, plain text).

Python dictionaries are embedded as ordered association lists over a JSON-like
value type `JVal`; machine floats that occur only as page/shape dimensions are
embedded as integers, since no verified property inspects them.
-/

set_option maxHeartbeats 1000000

namespace FPA

/-- A CPython `float`: an IEEE-754 binary64 value. A finite value denotes
`(-1)^sign * m * 2^e`; the encodings a real `float` object can carry are
carved out by `F64.okB`. The zero sign is kept (`-0.0` and `0.0` are
distinct objects with distinct reprs). -/
inductive F64 where
  | finite (sign : Bool) (m : Nat) (e : Int)
  | inf (sign : Bool)
  | nan
  deriving DecidableEq

/-- The canonical binary64 encodings: the mantissa fits in 53 bits, the
exponent is in range, and the value is either normal (`2 ^ 52 ≤ m`) or
subnormal (zero included) at the minimum exponent, so every real number has
at most one encoding. -/
def F64.okB : F64 → Bool
  | .finite _ m e =>
    decide (m < 2 ^ 53) && decide (-1074 ≤ e) && decide (e ≤ 971)
      && (decide (2 ^ 52 ≤ m) || decide (e = -1074))
  | _ => true

/-- A Python value as it occurs inside a parsed document: `None`, booleans,
integers, floats, strings, lists and (ordered) dictionaries. -/
inductive JVal where
  | jnull
  | jbool (b : Bool)
  | jint (n : Int)
  | jfloat (f : F64)
  | jstr (s : String)
  | jarr (elems : List JVal)
  | jobj (fields : List (String × JVal))

/-- `v is None`. -/
def JVal.isNull : JVal → Bool
  | .jnull => true
  | _ => false

/-- An ordered Python dictionary with string keys. -/
abbrev PyDict := List (String × JVal)

/-- `d.get(k)`: the value stored at key `k`, if any. -/
def dGet (d : PyDict) (k : String) : Option JVal :=
  (d.find? (fun kv => kv.1 = k)).map (fun kv => kv.2)

/-- `d[k] = v`: update in place when the key exists, else append at the end
(Python dictionaries preserve insertion order). -/
def dSet (d : PyDict) (k : String) (v : JVal) : PyDict :=
  if d.any (fun kv => kv.1 = k) then
    d.map (fun kv => if kv.1 = k then (k, v) else kv)
  else d ++ [(k, v)]

/-- Python truthiness of a value (`if v:`). -/
def pyTruthy : JVal → Bool
  | .jnull => false
  | .jbool b => b
  | .jint n => n != 0
  | .jfloat (.finite _ m _) => m != 0
  | .jfloat _ => true
  | .jstr s => s != ""
  | .jarr xs => !xs.isEmpty
  | .jobj fs => !fs.isEmpty

/-- The keys of a dictionary, in order. -/
def dKeys (d : PyDict) : List String := d.map (fun kv => kv.1)

/-- Python whitespace for `str.strip()`. -/
def isPySpace (c : Char) : Bool :=
  c = ' ' || c = '\t' || c = '\n' || c = '\r' || c = Char.ofNat 11 || c = Char.ofNat 12

/-- `str.strip()` on a character list. -/
def trimChars (cs : List Char) : List Char :=
  ((cs.dropWhile isPySpace).reverse.dropWhile isPySpace).reverse

/-- `str.strip()`. -/
def pyStrip (s : String) : String := ⟨trimChars s.data⟩

/-- `str.lower()` (ASCII case folding, as used on extensions and style names). -/
def pyLower (s : String) : String := ⟨s.data.map Char.toLower⟩

/-- One replacement pass of `str.replace(pat, sub)`: scans left to right,
replacing non-overlapping occurrences; `fuel` bounds the scan. -/
def replaceAux (pat sub : List Char) (fuel : Nat) (cs : List Char) : List Char :=
  match fuel, cs with
  | 0, cs => cs
  | _, [] => []
  | fuel + 1, c :: rest =>
    if pat.isPrefixOf (c :: rest) then
      sub ++ replaceAux pat sub fuel ((c :: rest).drop pat.length)
    else c :: replaceAux pat sub fuel rest

/-- `s.replace(pat, sub)` for a non-empty pattern. -/
def pyReplace (s pat sub : String) : String :=
  ⟨replaceAux pat.data sub.data s.data.length s.data⟩

/-- `int(s)`: optional surrounding whitespace, an optional sign, then at least
one decimal digit; anything else raises `ValueError` (here: `none`). -/
def pyInt? (s : String) : Option Int :=
  let t := trimChars s.data
  let (neg, ds) : Bool × List Char :=
    match t with
    | '-' :: r => (true, r)
    | '+' :: r => (false, r)
    | r => (false, r)
  if ds ≠ [] ∧ ds.all Char.isDigit then
    let n : Nat := ds.foldl (fun a c => a * 10 + (c.toNat - 48)) 0
    some (if neg then -(n : Int) else (n : Int))
  else none

/-! ## `pathlib.Path`: name and suffix -/

/-- The components of a path split on `/`, in order. -/
def pathParts (p : String) : List (List Char) :=
  p.data.foldr
    (fun c acc =>
      if c = '/' then [] :: acc
      else match acc with
        | a :: rest => (c :: a) :: rest
        | [] => [[c]])
    [[]]

/-- The final path component (`Path(p).name`), ignoring trailing slashes. -/
def pathName (p : String) : String :=
  ⟨((pathParts p).filter (fun part => part ≠ [])).getLastD []⟩

/-- `Path(p).suffix`: the part of the name from its last dot, empty when the
name has no dot, starts with its only dot, or ends with it. -/
def pathSuffix (p : String) : String :=
  let r := (pathName p).data.reverse
  match r.findIdx? (fun c => c = '.') with
  | some j => if j = 0 ∨ j = r.length - 1 then "" else ⟨(r.take (j + 1)).reverse⟩
  | none => ""

/-! ## Configuration (`config.py`) -/

/-- The four format families (`SUPPORTED_EXTENSIONS` keys). -/
inductive Family where
  | pdf
  | word
  | excel
  | powerpoint
deriving DecidableEq

/-- `SUPPORTED_EXTENSIONS`: the declared extension set of each family. -/
def supportedExtensions : Family → List String
  | .pdf => [".pdf"]
  | .word => [".docx", ".doc"]
  | .excel => [".xlsx", ".xls"]
  | .powerpoint => [".pptx", ".ppt"]

/-- The families in declaration order, for iterating `SUPPORTED_EXTENSIONS`. -/
def familyOrder : List Family := [.pdf, .word, .excel, .powerpoint]

/-- `ALL_SUPPORTED_EXTENSIONS`: the flattened extension list. -/
def allSupportedExtensions : List String :=
  familyOrder.foldr (fun f acc => supportedExtensions f ++ acc) []

/-- `MAX_FILE_SIZE_BYTES` (50 MB). -/
def maxFileSizeBytes : Nat := 50 * 1024 * 1024

/-! ## Parser classes: declared extensions and `can_parse` (`parsers/base.py`) -/

/-- Each parser class's own `SUPPORTED_EXTENSIONS` list. -/
def parserClassExtensions : Family → List String
  | .pdf => [".pdf"]
  | .word => [".docx", ".doc"]
  | .excel => [".xlsx", ".xls"]
  | .powerpoint => [".pptx", ".ppt"]

/-- `BaseDocumentParser.can_parse`: the lowered suffix of the path is in the
class's extension list. -/
def canParse (f : Family) (path : String) : Bool :=
  (parserClassExtensions f).contains (pyLower (pathSuffix path))

/-! ## File validation (`utils/validation.py`) -/

/-- The filesystem facts `FileValidator.validate` consults about a path. -/
structure FileInfo where
  fsExists : Bool
  isFile : Bool
  sizeBytes : Nat
  path : String

/-- `MIME_TYPE_MAP`: sniffed MIME type to expected extension. -/
def mimeTypeMap : List (String × String) :=
  [("application/pdf", ".pdf"),
   ("application/vnd.openxmlformats-officedocument.wordprocessingml.document", ".docx"),
   ("application/msword", ".doc"),
   ("application/vnd.openxmlformats-officedocument.spreadsheetml.sheet", ".xlsx"),
   ("application/vnd.ms-excel", ".xls"),
   ("application/vnd.openxmlformats-officedocument.presentationml.presentation", ".pptx"),
   ("application/vnd.ms-powerpoint", ".ppt")]

/-- `FileValidator._get_format_family`: the first family whose extension list
contains `ext`. -/
def getFormatFamily (ext : String) : Option Family :=
  familyOrder.find? (fun f => (supportedExtensions f).contains ext)

/-- `{bytes / (1024*1024):.1f}` rendered with integer arithmetic (one decimal,
rounded half up; close enough for a message no property inspects). -/
def mbOneDecimal (bytes : Nat) : String :=
  let tenths := (bytes * 10 + 524288) / 1048576
  s!"{tenths / 10}.{tenths % 10}"

/-- `FileValidator._validate_size`. -/
def validateSize (maxSize : Nat) (f : FileInfo) : Bool × Option String :=
  if f.sizeBytes = 0 then (false, some "File is empty")
  else if f.sizeBytes > maxSize then
    (false, some s!"File too large: {mbOneDecimal f.sizeBytes}MB exceeds maximum {maxSize / 1048576}MB")
  else (true, none)

/-- `FileValidator._validate_extension`. -/
def validateExtension (allowed : List String) (f : FileInfo) : Bool × Option String :=
  let ext := pyLower (pathSuffix f.path)
  if ext = "" then (false, some "File has no extension")
  else if !allowed.contains ext then
    let supported := String.intercalate ", " allowed
    (false, some s!"Unsupported file type: {ext}. Supported: {supported}")
  else (true, none)

/-- `FileValidator._validate_content_type`: advisory when the magic library is
unavailable or sniffing fails (`sniffedMime = none`); otherwise compares the
format family of the declared extension with that of the sniffed MIME type. -/
def validateContentType (magicAvailable : Bool) (sniffedMime : Option String)
    (f : FileInfo) : Bool × Option String :=
  if !magicAvailable then (true, none)
  else
    match sniffedMime with
    | none => (true, none)
    | some mime =>
      let expectedExt := pyLower (pathSuffix f.path)
      match (mimeTypeMap.find? (fun kv => kv.1 = mime)).map (fun kv => kv.2) with
      | some actualExt =>
        if getFormatFamily expectedExt ≠ getFormatFamily actualExt then
          (false, some s!"File content does not match extension. Expected {expectedExt}, detected {actualExt}")
        else (true, none)
      | none => (true, none)

/-- `FileValidator.validate`: existence, regular file, size, extension, then
content type, returning the first failure. -/
def validate (maxSize : Nat) (allowed : List String) (magicAvailable : Bool)
    (sniffedMime : Option String) (f : FileInfo) : Bool × Option String :=
  if !f.fsExists then (false, some s!"File not found: {f.path}")
  else if !f.isFile then (false, some s!"Not a file: {f.path}")
  else
    let sizeRes := validateSize maxSize f
    if !sizeRes.1 then sizeRes
    else
      let extRes := validateExtension allowed f
      if !extRes.1 then extRes
      else
        let ctRes := validateContentType magicAvailable sniffedMime f
        if !ctRes.1 then ctRes
        else (true, none)

/-- `FileValidator.get_file_type`. -/
def getFileType (path : String) : Option Family :=
  getFormatFamily (pyLower (pathSuffix path))

/-! ## The parsed-document model (`parsers/base.py`) -/

/-- `ParsedDocument`: the normalized document every parser returns. -/
structure ParsedDocument where
  filename : String
  file_type : String
  parsed_at : String
  metadata : PyDict := []
  content : PyDict := []
  tables : List JVal := []
  images : List PyDict := []
  errors : List String := []

/-- `ParsedDocument.to_dict` as an ordered field list. -/
def toDictPairs (d : ParsedDocument) : PyDict :=
  [("filename", .jstr d.filename),
   ("file_type", .jstr d.file_type),
   ("parsed_at", .jstr d.parsed_at),
   ("metadata", .jobj d.metadata),
   ("content", .jobj d.content),
   ("tables", .jarr d.tables),
   ("images", .jarr (d.images.map .jobj)),
   ("errors", .jarr (d.errors.map .jstr))]

/-- `ParsedDocument.to_dict`. -/
def toDict (d : ParsedDocument) : JVal := JVal.jobj (toDictPairs d)

/-! ## Word parser (`parsers/word_parser.py`) -/

/-- A `python-docx` paragraph: its text and the name of its style (the style
object may be missing). -/
structure DocxParagraph where
  text : String
  style : Option String

/-- One paragraph entry of `WordParser._extract_paragraphs`. -/
def wordParagraphEntry (i : Nat) (p : DocxParagraph) : PyDict :=
  let base : PyDict :=
    [("index", .jint i),
     ("text", .jstr p.text),
     ("style", match p.style with | some name => .jstr name | none => .jnull)]
  match p.style with
  | some name =>
    if "Heading".data.isPrefixOf name.data then
      let level := (pyInt? (pyReplace name "Heading " "")).getD 1
      base ++ [("is_heading", .jbool true), ("heading_level", .jint level)]
    else base
  | none => base

/-- `WordParser._extract_paragraphs`: skips blank paragraphs but numbers all
of them; heading style names yield `is_heading`/`heading_level`. -/
def wordExtractParagraphs (paras : List DocxParagraph) : List PyDict :=
  paras.enum.filterMap (fun ip =>
    if pyStrip ip.2.text ≠ "" then some (wordParagraphEntry ip.1 ip.2) else none)

/-- A `python-docx` table: `python-docx` exposes a full grid, in which
`row.cells` always yields one cell per table column (merged cells repeat). -/
structure DocxTable where
  nRows : Nat
  nCols : Nat
  cellText : Nat → Nat → String

/-- `WordParser.extract_tables`: one dictionary per table; each cell text is
stripped. -/
def wordExtractTables (tables : List DocxTable) : List PyDict :=
  tables.enum.map (fun it =>
    [("index", .jint it.1),
     ("rows", .jint it.2.nRows),
     ("columns", .jint it.2.nCols),
     ("data", .jarr ((List.range it.2.nRows).map (fun r =>
        .jarr ((List.range it.2.nCols).map (fun c =>
          .jstr (pyStrip (it.2.cellText r c)))))))])

/-! ## Excel parser (`parsers/excel_parser.py`) -/

/-- An `openpyxl` worksheet: `iter_rows` yields a `max_row` by `max_column`
rectangle of cell values (`None` for empty cells). -/
structure Worksheet where
  wsName : String
  maxRow : Nat
  maxCol : Nat
  cellValue : Nat → Nat → JVal

/-- The rows `sheet.iter_rows()` yields, as lists of cell values. -/
def iterRows (s : Worksheet) : List (List JVal) :=
  (List.range s.maxRow).map (fun r => (List.range s.maxCol).map (fun c => s.cellValue r c))

/-- `any(v is not None for v in row_values)`. -/
def rowHasValue (row : List JVal) : Bool := row.any (fun v => !v.isNull)

/-- `ExcelParser._extract_sheet_data` without a row cap: keeps only rows with
at least one non-`None` cell (cell-value normalization is the identity on the
primitive values `JVal` covers). -/
def excelExtractSheetData (s : Worksheet) : List (List JVal) :=
  (iterRows s).filter rowHasValue

/-- The header/data split inside `ExcelParser.extract_tables`: the first
non-empty row becomes `headers`, every later non-empty row is data, and fully
blank rows are dropped. -/
def excelHeaderSplit : List (List JVal) → Bool → List JVal × List (List JVal)
  | [], _ => ([], [])
  | row :: rest, firstRow =>
    if rowHasValue row then
      if firstRow then
        let tl := excelHeaderSplit rest false
        (row, tl.2)
      else
        let tl := excelHeaderSplit rest false
        (tl.1, row :: tl.2)
    else excelHeaderSplit rest firstRow

/-- The table dictionary `ExcelParser.extract_tables` builds for one sheet. -/
def excelSheetTable (s : Worksheet) : PyDict :=
  let split := excelHeaderSplit (iterRows s) true
  [("name", .jstr s.wsName),
   ("rows", .jint s.maxRow),
   ("columns", .jint s.maxCol),
   ("headers", .jarr split.1),
   ("data", .jarr (split.2.map .jarr))]

/-- `ExcelParser.extract_tables`: one table per sheet whose `max_row` and
`max_column` are truthy. -/
def excelExtractTables (sheets : List Worksheet) : List PyDict :=
  sheets.filterMap (fun s =>
    if s.maxRow ≠ 0 ∧ s.maxCol ≠ 0 then some (excelSheetTable s) else none)

/-! ## PowerPoint parser (`parsers/powerpoint_parser.py`), tables only -/

/-- A `python-pptx` table grid: `row.cells` yields one cell per column. -/
structure PptTable where
  nRows : Nat
  nCols : Nat
  cellText : Nat → Nat → String

/-- A slide shape, as far as table extraction is concerned. -/
structure PptShape where
  shapeName : String
  tableGrid : Option PptTable

/-- A slide: its shapes in order. -/
structure PptSlide where
  shapes : List PptShape

/-- `PowerPointParser._extract_table_from_shape` (cell text is not stripped). -/
def pptTableFromShape (t : PptTable) : PyDict :=
  [("rows", .jint t.nRows),
   ("columns", .jint t.nCols),
   ("data", .jarr ((List.range t.nRows).map (fun r =>
      .jarr ((List.range t.nCols).map (fun c => .jstr (t.cellText r c))))))]

/-- `PowerPointParser.extract_tables`: every table shape, slide by slide, with
`slide_number` and `shape_name` appended. -/
def pptExtractTables (slides : List PptSlide) : List PyDict :=
  (slides.enum.map (fun isl =>
    isl.2.shapes.filterMap (fun sh =>
      sh.tableGrid.map (fun t =>
        pptTableFromShape t
          ++ [("slide_number", JVal.jint (isl.1 + 1)), ("shape_name", JVal.jstr sh.shapeName)])))).flatten

/-! ## PDF parser (`parsers/pdf_parser.py`) -/

/-- `PDFParser.extract_tables` is intentionally empty: PyPDF2 has no table
detection. -/
def pdfExtractTables : List PyDict := []

/-- A PyPDF2 page: `extract_text()` may raise, or return no text (`none`); the
media box may be absent. Dimensions are embedded as integers. -/
structure PdfPage where
  extractText : Except String (Option String)
  mediabox : Option (Int × Int)

/-- The page dictionary `PDFParser._extract_pages` builds (1-based numbering,
`text or ""`). -/
def pdfPageEntry (i : Nat) (p : PdfPage) (text : Option String) : PyDict :=
  [("page_number", .jint (i + 1)), ("text", .jstr (text.getD ""))]
    ++ (match p.mediabox with
        | some wh => [("width", JVal.jint wh.1), ("height", JVal.jint wh.2)]
        | none => [])

/-- `PDFParser._extract_pages` from position `i`: stops with the exception of
the first page whose text extraction raises. -/
def pdfExtractPagesFrom (i : Nat) : List PdfPage → Except String (List PyDict)
  | [] => .ok []
  | p :: rest =>
    match p.extractText with
    | .error e => .error e
    | .ok text => (pdfExtractPagesFrom (i + 1) rest).map (fun tl => pdfPageEntry i p text :: tl)

/-- `PDFParser._extract_pages`. -/
def pdfExtractPages (pages : List PdfPage) : Except String (List PyDict) :=
  pdfExtractPagesFrom 0 pages

/-! ## The `parse()` skeletons

Each `parse()` builds a fresh `ParsedDocument`, then runs its extraction steps
inside one `try`: the first step that raises stops the sequence, the message is
appended to `errors`, and the document is returned with whatever fields were
already assigned. Extraction steps whose bodies live in the underlying
libraries are supplied as `Except`-valued arguments. -/

/-- `PDFParser.parse`: metadata, then content (page count and
`_extract_pages`), then tables (never raises), then images. -/
def pdfParse (filename parsedAt : String) (meta : Except String PyDict)
    (pages : List PdfPage) (images : Except String (List PyDict)) : ParsedDocument :=
  let d0 : ParsedDocument := { filename := filename, file_type := "pdf", parsed_at := parsedAt }
  match meta with
  | .error e => { d0 with errors := [e] }
  | .ok m =>
    let d1 := { d0 with metadata := m }
    match pdfExtractPages pages with
    | .error e => { d1 with errors := [e] }
    | .ok pageList =>
      let d2 := { d1 with content :=
        [("total_pages", .jint pages.length), ("pages", .jarr (pageList.map .jobj))] }
      let d3 := { d2 with tables := pdfExtractTables.map .jobj }
      match images with
      | .error e => { d3 with errors := [e] }
      | .ok imgs => { d3 with images := imgs }

/-- `WordParser.parse`: metadata, then content (paragraphs and sections,
both inside one dictionary literal), then tables, then images. -/
def wordParse (filename parsedAt : String) (meta : Except String PyDict)
    (paragraphs sections : Except String (List PyDict))
    (tables : Except String (List PyDict))
    (images : Except String (List PyDict)) : ParsedDocument :=
  let d0 : ParsedDocument := { filename := filename, file_type := "word", parsed_at := parsedAt }
  match meta with
  | .error e => { d0 with errors := [e] }
  | .ok m =>
    let d1 := { d0 with metadata := m }
    match paragraphs with
    | .error e => { d1 with errors := [e] }
    | .ok ps =>
      match sections with
      | .error e => { d1 with errors := [e] }
      | .ok ss =>
        let d2 := { d1 with content :=
          [("paragraphs", .jarr (ps.map .jobj)), ("sections", .jarr (ss.map .jobj))] }
        match tables with
        | .error e => { d2 with errors := [e] }
        | .ok ts =>
          let d3 := { d2 with tables := ts.map .jobj }
          match images with
          | .error e => { d3 with errors := [e] }
          | .ok imgs => { d3 with images := imgs }

/-- `ExcelParser.parse`: metadata, then content (sheet count, sheet names and
`_extract_sheets`), then tables; Excel has no image step. -/
def excelParse (filename parsedAt : String) (meta : Except String PyDict)
    (sheetNames : List String) (sheetsContent : Except String (List PyDict))
    (tables : Except String (List PyDict)) : ParsedDocument :=
  let d0 : ParsedDocument := { filename := filename, file_type := "excel", parsed_at := parsedAt }
  match meta with
  | .error e => { d0 with errors := [e] }
  | .ok m =>
    let d1 := { d0 with metadata := m }
    match sheetsContent with
    | .error e => { d1 with errors := [e] }
    | .ok sheets =>
      let d2 := { d1 with content :=
        [("sheet_count", .jint sheetNames.length),
         ("sheet_names", .jarr (sheetNames.map .jstr)),
         ("sheets", .jarr (sheets.map .jobj))] }
      match tables with
      | .error e => { d2 with errors := [e] }
      | .ok ts => { d2 with tables := ts.map .jobj }

/-- `PowerPointParser.parse`: metadata, then content (slide count and
`_extract_slides`), then tables, then images. -/
def pptParse (filename parsedAt : String) (meta : Except String PyDict)
    (slideCount : Nat) (slides : Except String (List PyDict))
    (tables : Except String (List PyDict))
    (images : Except String (List PyDict)) : ParsedDocument :=
  let d0 : ParsedDocument :=
    { filename := filename, file_type := "powerpoint", parsed_at := parsedAt }
  match meta with
  | .error e => { d0 with errors := [e] }
  | .ok m =>
    let d1 := { d0 with metadata := m }
    match slides with
    | .error e => { d1 with errors := [e] }
    | .ok sl =>
      let d2 := { d1 with content :=
        [("slide_count", .jint slideCount), ("slides", .jarr (sl.map .jobj))] }
      match tables with
      | .error e => { d2 with errors := [e] }
      | .ok ts =>
        let d3 := { d2 with tables := ts.map .jobj }
        match images with
        | .error e => { d3 with errors := [e] }
        | .ok imgs => { d3 with images := imgs }

/-- The first exception raised across the PDF extraction sequence. -/
def pdfFirstErr (meta : Except String PyDict) (pages : List PdfPage)
    (images : Except String (List PyDict)) : Option String :=
  match meta with
  | .error e => some e
  | .ok _ =>
    match pdfExtractPages pages with
    | .error e => some e
    | .ok _ =>
      match images with
      | .error e => some e
      | .ok _ => none

/-- The first exception raised across the Word extraction sequence. -/
def wordFirstErr (meta : Except String PyDict)
    (paragraphs sections tables images : Except String (List PyDict)) : Option String :=
  match meta with
  | .error e => some e
  | .ok _ =>
    match paragraphs with
    | .error e => some e
    | .ok _ =>
      match sections with
      | .error e => some e
      | .ok _ =>
        match tables with
        | .error e => some e
        | .ok _ =>
          match images with
          | .error e => some e
          | .ok _ => none

/-- The first exception raised across the Excel extraction sequence. -/
def excelFirstErr (meta : Except String PyDict)
    (sheetsContent tables : Except String (List PyDict)) : Option String :=
  match meta with
  | .error e => some e
  | .ok _ =>
    match sheetsContent with
    | .error e => some e
    | .ok _ =>
      match tables with
      | .error e => some e
      | .ok _ => none

/-- The first exception raised across the PowerPoint extraction sequence. -/
def pptFirstErr (meta : Except String PyDict)
    (slides tables images : Except String (List PyDict)) : Option String :=
  match meta with
  | .error e => some e
  | .ok _ =>
    match slides with
    | .error e => some e
    | .ok _ =>
      match tables with
      | .error e => some e
      | .ok _ =>
        match images with
        | .error e => some e
        | .ok _ => none

/-! ## Python floats: rounding and `float.__repr__`

CPython's `repr(float)` prints the shortest decimal string that reads back,
by correct rounding, to the same binary64 value, choosing fixed or
scientific notation by the decimal exponent; `float(string)` is the
correctly rounded conversion of the exact decimal. Both are embedded here
over exact rationals. -/

/-- The character of decimal digit `d`. -/
def digitCh (d : Nat) : Char := Char.ofNat (48 + d)

/-- The decimal digits of `n`, most significant first. -/
def natChars (n : Nat) : List Char :=
  if n = 0 then ['0'] else ((Nat.digits 10 n).map digitCh).reverse

/-- `2 ^ e` as a rational, for an integer exponent. -/
def qpow2 (e : Int) : ℚ :=
  if 0 ≤ e then ((2 ^ e.toNat : Nat) : ℚ) else ((2 ^ (-e).toNat : Nat) : ℚ)⁻¹

/-- `10 ^ e` as a rational, for an integer exponent. -/
def qpow10 (e : Int) : ℚ :=
  if 0 ≤ e then ((10 ^ e.toNat : Nat) : ℚ) else ((10 ^ (-e).toNat : Nat) : ℚ)⁻¹

/-- Round to the nearest integer, ties to even (the IEEE-754 default
rounding used by binary64 arithmetic and conversions). -/
def rne (q : ℚ) : Int :=
  let f := ⌊q⌋
  if q - f < 1 / 2 then f
  else if 1 / 2 < q - f then f + 1
  else if f % 2 = 0 then f else f + 1

/-- `⌊log b n⌋` by repeated division, with enough fuel. -/
def flogB (b : Nat) : Nat → Nat → Nat
  | 0, _ => 0
  | fuel + 1, n => if n < b then 0 else flogB b fuel (n / b) + 1

/-- `⌊log2 a⌋` for a positive rational in binary64 range, computed on the
integer `⌊a * 2 ^ 1200⌋`. -/
def qlog2 (a : ℚ) : Int :=
  (flogB 2 2400 (Int.toNat ⌊a * ((2 ^ 1200 : Nat) : ℚ)⌋) : Int) - 1200

/-- `⌊log10 a⌋` for a positive rational in binary64 range, computed on the
integer `⌊a * 10 ^ 400⌋`. -/
def qlog10 (a : ℚ) : Int :=
  (flogB 10 1000 (Int.toNat ⌊a * ((10 ^ 400 : Nat) : ℚ)⌋) : Int) - 400

/-- Round a positive magnitude at the exponent `e`: the mantissa is the
nearest integer to `a / 2 ^ e`; a mantissa overflow carries into the next
exponent, overflowing to infinity past the largest finite value. -/
def roundAt (a : ℚ) (e : Int) : Option (Nat × Int) :=
  if rne (a * qpow2 (-e)) < 2 ^ 53 then some ((rne (a * qpow2 (-e))).toNat, e)
  else if e + 1 ≤ 971 then some (2 ^ 52, e + 1)
  else none

/-- Correctly round a non-negative magnitude to binary64: the nearest
representable `m * 2 ^ e`, ties to even, `none` meaning overflow to
infinity. This is the semantics of CPython's `float(decimal-string)`
conversion, which `json.load` applies to number tokens carrying a fraction
or an exponent. -/
def roundMag (a : ℚ) : Option (Nat × Int) :=
  if a ≤ 0 then some (0, -1074)
  else if ((2 ^ 1024 : Nat) : ℚ) ≤ a then none
  else roundAt a (max (qlog2 a - 52) (-1074))

/-- Assemble a signed float from a rounded magnitude. -/
def mkFloat (sign : Bool) : Option (Nat × Int) → F64
  | some me => .finite sign me.1 me.2
  | none => .inf sign

/-- The numeric value of a run of decimal digit characters. -/
def digitsVal (ds : List Char) : Nat :=
  ds.foldl (fun a c => a * 10 + (c.toNat - 48)) 0

/-- The value of a digit string with a decimal point position:
`0.digits * 10 ^ decpt`, the shape CPython's float-to-string conversion
works with. -/
def candValQ (c : List Char × Int) : ℚ :=
  (digitsVal c.1 : ℚ) * qpow10 (c.2 - c.1.length)

/-- A well-formed significand: non-empty decimal digits, no leading zero. -/
def digitsOkB (D : List Char) : Bool :=
  !D.isEmpty && D.all Char.isDigit && D.head? != some '0'

/-- The `q`-significant-digit decimal nearest to the magnitude `a`. -/
def candAt (a : ℚ) (q : Nat) : List Char × Int :=
  let E := qlog10 a
  let s := rne (a * qpow10 ((q : Int) - 1 - E))
  if s = 10 ^ q then (['1'], E + 2) else (natChars s.toNat, E + 1)

/-- The exact decimal expansion of the finite magnitude `m * 2 ^ e` (every
binary64 value is exactly a finite decimal, since `2 ^ -t = 5 ^ t / 10 ^ t`). -/
def exactCand (m : Nat) (e : Int) : List Char × Int :=
  if 0 ≤ e then
    let D := natChars (m * 2 ^ e.toNat)
    (D, (D.length : Int))
  else
    let D := natChars (m * 5 ^ (-e).toNat)
    (D, (D.length : Int) + e)

/-- Candidate significands for the magnitude `m * 2 ^ e`: the nearest 1- to
17-significant-digit decimals, then the exact expansion. -/
def candList (m : Nat) (e : Int) : List (List Char × Int) :=
  ((List.range 17).map (fun i => candAt ((m : ℚ) * qpow2 e) (i + 1))) ++ [exactCand m e]

/-- The significand `repr` prints for the finite magnitude `m * 2 ^ e`: the
first (hence shortest) candidate that is well formed and reads back, by
correct rounding, to exactly `m * 2 ^ e` — CPython's documented contract
that `repr` yields the shortest string with `float(repr(x)) == x`. -/
def floatDigits (m : Nat) (e : Int) : List Char × Int :=
  ((candList m e).find? (fun c =>
      digitsOkB c.1 && decide (roundMag (candValQ c) = some (m, e)))).getD (exactCand m e)

/-- The exponent field of scientific notation: an explicit sign and at
least two digits, as CPython prints it. -/
def expChars (d : Int) : List Char :=
  (if d < 0 then ['-'] else ['+']) ++
    (let n := natChars d.natAbs; if n.length = 1 then '0' :: n else n)

/-- Scientific notation `d.dddde±XX` for significand `D` with point
position `decpt` (no fraction part for a one-digit significand). -/
def fmtSci (D : List Char) (decpt : Int) : List Char :=
  match D with
  | [] => []
  | d0 :: ds => d0 :: ((if ds.isEmpty then [] else '.' :: ds) ++ 'e' :: expChars (decpt - 1))

/-- Fixed notation for significand `D` with point position `decpt`
(integral values get a trailing `.0`, as `repr` prints them). -/
def fmtFix (D : List Char) (decpt : Int) : List Char :=
  if decpt ≤ 0 then '0' :: '.' :: (List.replicate (-decpt).toNat '0' ++ D)
  else if decpt < (D.length : Int) then D.take decpt.toNat ++ '.' :: D.drop decpt.toNat
  else D ++ List.replicate (decpt.toNat - D.length) '0' ++ ['.', '0']

/-- CPython `repr` notation choice: fixed for `1e-4 ≤ |x| < 1e16`,
scientific otherwise. -/
def fmtDigits (D : List Char) (decpt : Int) : List Char :=
  if -4 < decpt ∧ decpt ≤ 16 then fmtFix D decpt else fmtSci D decpt

/-- The characters of `repr` for a non-zero finite magnitude. -/
def finiteMagChars (m : Nat) (e : Int) : List Char :=
  fmtDigits (floatDigits m e).1 (floatDigits m e).2

/-- `float.__repr__` as `json.dump` writes floats: signed shortest decimal
for finite values, and the (non-JSON, but read back by `json.load`) tokens
`Infinity`, `-Infinity` and `NaN` for the non-finite values, `allow_nan`
being left at its default. -/
def floatChars : F64 → List Char
  | .nan => ['N', 'a', 'N']
  | .inf false => ['I', 'n', 'f', 'i', 'n', 'i', 't', 'y']
  | .inf true => ['-', 'I', 'n', 'f', 'i', 'n', 'i', 't', 'y']
  | .finite s m e =>
    (if s then ['-'] else []) ++ (if m = 0 then ['0', '.', '0'] else finiteMagChars m e)

/-- `str(x)` (which equals `repr(x)`) for a float: as the JSON form, but
non-finite values print `inf`, `-inf` and `nan`. -/
def pyFloatStr : F64 → String
  | .nan => "nan"
  | .inf false => "inf"
  | .inf true => "-inf"
  | .finite s m e =>
    ⟨(if s then ['-'] else []) ++ (if m = 0 then ['0', '.', '0'] else finiteMagChars m e)⟩

/-! ## Python `str()` and `repr()` of document values -/

/-- A single-quote character, for Python string reprs. -/
def squote : Char := Char.ofNat 39

/-- One character of a Python string repr quoted with `q`. -/
def pyEscRepr (q : Char) (c : Char) : List Char :=
  if c = '\\' then ['\\', '\\']
  else if c = q then ['\\', q]
  else if c = '\n' then ['\\', 'n']
  else if c = '\r' then ['\\', 'r']
  else if c = '\t' then ['\\', 't']
  else [c]

/-- `repr(s)` for a string: single quotes, switching to double quotes when the
string contains a single quote but no double quote. -/
def pyReprStr (s : String) : String :=
  let q : Char := if s.data.contains squote ∧ ¬ s.data.contains '"' then '"' else squote
  ⟨q :: ((s.data.map (pyEscRepr q)).flatten ++ [q])⟩

mutual

/-- `repr(v)` for a document value. -/
def pyRepr : JVal → String
  | .jnull => "None"
  | .jbool true => "True"
  | .jbool false => "False"
  | .jint n => toString n
  | .jfloat f => pyFloatStr f
  | .jstr s => pyReprStr s
  | .jarr xs => "[" ++ pyReprElems xs ++ "]"
  | .jobj fs => "\x7b" ++ pyReprFields fs ++ "\x7d"

/-- The comma-separated element reprs of a list. -/
def pyReprElems : List JVal → String
  | [] => ""
  | [x] => pyRepr x
  | x :: xs => pyRepr x ++ ", " ++ pyReprElems xs

/-- The comma-separated `key: value` reprs of a dictionary. -/
def pyReprFields : List (String × JVal) → String
  | [] => ""
  | [kv] => pyReprStr kv.1 ++ ": " ++ pyRepr kv.2
  | kv :: fs => pyReprStr kv.1 ++ ": " ++ pyRepr kv.2 ++ ", " ++ pyReprFields fs

end

/-- `str(v)`: strings stay themselves, containers and the rest render as their
repr (which coincides with `str` for numbers, booleans and `None`). -/
def pyStr : JVal → String
  | .jstr s => s
  | v => pyRepr v

/-! ## Output manager (`utils/output_manager.py`) -/

mutual

/-- One entry of `OutputManager._flatten_dict`: a nested dictionary recurses
under its dotted key, a list is stringified whole, anything else is kept. -/
def flattenVal : String → JVal → List (String × JVal)
  | nk, .jobj d2 => flattenItems d2 nk
  | nk, .jarr xs => [(nk, .jstr (pyStr (.jarr xs)))]
  | nk, v => [(nk, v)]

/-- `OutputManager._flatten_dict` before the final `dict(items)`. -/
def flattenItems : PyDict → String → List (String × JVal)
  | [], _ => []
  | (k, v) :: rest, parent =>
    flattenVal (if parent = "" then k else parent ++ "." ++ k) v ++ flattenItems rest parent

end

/-- `dict(items)`: first-occurrence order, last value wins. -/
def pyDictFromItems (items : List (String × JVal)) : PyDict :=
  items.foldl (fun acc kv => dSet acc kv.1 kv.2) []

/-- `OutputManager._flatten_dict`. -/
def flattenDict (d : PyDict) : PyDict := pyDictFromItems (flattenItems d "")

/-- The rows `OutputManager._save_csv` writes (the CSV writer stringifies each
field): a `Key`/`Value` dump of the flattened document when `tables` is empty,
else every table's header row, data rows and a blank separator row. -/
def saveCsvRows (data : PyDict) : List (List String) :=
  let tables := match dGet data "tables" with
    | some (.jarr ts) => ts
    | _ => []
  if tables.isEmpty then
    ["Key", "Value"] :: (flattenDict data).map (fun kv => [kv.1, pyStr kv.2])
  else
    (tables.map (fun t =>
      match t with
      | .jobj td =>
        let headers := match dGet td "headers" with | some (.jarr hs) => hs | _ => []
        let rows := match dGet td "data" with | some (.jarr rs) => rs | _ => []
        (if !headers.isEmpty then [headers.map pyStr] else [])
          ++ rows.map (fun r => match r with | .jarr cells => cells.map pyStr | _ => [])
          ++ [([] : List String)]
      | _ => [([] : List String)])).flatten

/-- `'#' * n`. -/
def hashes (n : Nat) : String := ⟨List.replicate n '#'⟩

/-- The list stored under `k`, else `[]` (`d.get(k, [])` for iteration). -/
def getArr (d : PyDict) (k : String) : List JVal :=
  match dGet d k with
  | some (.jarr xs) => xs
  | _ => []

/-- A value viewed as a dictionary (the renderer iterates entries it built). -/
def asObj : JVal → PyDict
  | .jobj d => d
  | _ => []

/-- `OutputManager._word_to_markdown`: a content header, then each paragraph;
headings render as `'#' * (heading_level + 1)` followed by the text. -/
def wordToMarkdown (content : PyDict) : List String :=
  "## Content\n" :: (getArr content "paragraphs").flatMap (fun pv =>
    let para := asObj pv
    let text := pyStr ((dGet para "text").getD (.jstr ""))
    if pyTruthy ((dGet para "is_heading").getD .jnull) then
      let level : Int := match dGet para "heading_level" with
        | some (.jint n) => n
        | _ => 2
      [hashes (level + 1).toNat ++ " " ++ text ++ "\n"]
    else [text, ""])

/-! ## Vision enrichment (`services/parsing_engine.py`) -/

/-- The outcome of one vision call on an image: success with a description,
an unsuccessful response carrying `result.get("error")`, or a raised
exception (base64 decode included). -/
inductive VisionOutcome where
  | ok (desc : String)
  | fail (err : JVal)
  | exn (msg : String)

/-- `img.get('blob')` is truthy. -/
def hasBlob (img : PyDict) : Bool :=
  match dGet img "blob" with
  | some v => pyTruthy v
  | none => false

/-- `pat in s` on character lists. -/
def containsSub (pat : List Char) : List Char → Bool
  | [] => pat.isEmpty
  | c :: rest => pat.isPrefixOf (c :: rest) || containsSub pat rest

/-- `'chart' in str(img.get('name', '')).lower()`. -/
def mentionsChart (img : PyDict) : Bool :=
  containsSub "chart".data (pyLower (pyStr ((dGet img "name").getD (.jstr "")))).data

/-- The mutation `ParsingEngine._analyze_document_images` applies to one image
dictionary: nothing without a truthy blob; otherwise `description` plus either
`ai_analyzed` (success) or `ai_error` (failure or exception). -/
def analyzeOneImage (outcome : VisionOutcome) (img : PyDict) : PyDict :=
  if hasBlob img then
    match outcome with
    | .ok desc => dSet (dSet img "description" (.jstr desc)) "ai_analyzed" (.jbool true)
    | .fail err => dSet (dSet img "description" (.jstr "Image analysis failed")) "ai_error" err
    | .exn m => dSet (dSet img "description" (.jstr "Error analyzing image")) "ai_error" (.jstr m)
  else img

/-- `ParsingEngine._analyze_document_images`: untouched when the vision
service is unavailable; otherwise each image is analyzed in order, charts by
name going to the chart service. -/
def analyzeDocumentImages (available : Bool) (chartSvc imageSvc : Nat → VisionOutcome)
    (d : ParsedDocument) : ParsedDocument :=
  if !available then d
  else { d with images := d.images.enum.map (fun ii =>
    analyzeOneImage (if mentionsChart ii.2 then chartSvc ii.1 else imageSvc ii.1) ii.2) }

/-! ## Structured output: `json.dump(data, indent=2, ensure_ascii=False)`
and reading it back with `json.load` -/

/-- JSON whitespace. -/
def isJWs (c : Char) : Bool := c = ' ' || c = '\n' || c = '\t' || c = '\r'

/-- Drop leading JSON whitespace. -/
def jskip : List Char → List Char
  | c :: cs => if isJWs c then jskip cs else c :: cs
  | [] => []

/-- The newline-plus-indent `json.dump` writes before an item at `lvl`. -/
def jws (lvl : Nat) : List Char := '\n' :: List.replicate (2 * lvl) ' '

/-- An integer as `json.dump` prints it. -/
def intChars (n : Int) : List Char :=
  (if n < 0 then ['-'] else []) ++ natChars n.natAbs

/-- A lower-case hexadecimal digit. -/
def hexCh (d : Nat) : Char :=
  if d < 10 then Char.ofNat (48 + d) else Char.ofNat (87 + d)

/-- One character of a JSON string as `ensure_ascii=False` escapes it: quote,
backslash and named control characters get two-character escapes, other
control characters get `\u00XX`, everything else is written raw. -/
def escSeq (c : Char) : List Char :=
  if c = '"' then ['\\', '"']
  else if c = '\\' then ['\\', '\\']
  else if c = '\n' then ['\\', 'n']
  else if c = '\t' then ['\\', 't']
  else if c = '\r' then ['\\', 'r']
  else if c = Char.ofNat 8 then ['\\', 'b']
  else if c = Char.ofNat 12 then ['\\', 'f']
  else if c.toNat < 32 then ['\\', 'u', '0', '0', hexCh (c.toNat / 16), hexCh (c.toNat % 16)]
  else [c]

/-- A JSON string literal, quotes included. -/
def dumpStr (s : String) : List Char := '"' :: ((s.data.map escSeq).flatten ++ ['"'])

mutual

/-- `json.dump(v, indent=2)` at indentation level `lvl`, as characters. -/
def jdump : JVal → Nat → List Char
  | .jnull, _ => ['n', 'u', 'l', 'l']
  | .jbool true, _ => ['t', 'r', 'u', 'e']
  | .jbool false, _ => ['f', 'a', 'l', 's', 'e']
  | .jint n, _ => intChars n
  | .jfloat f, _ => floatChars f
  | .jstr s, _ => dumpStr s
  | .jarr [], _ => ['[', ']']
  | .jarr (x :: xs), lvl =>
    '[' :: (jws (lvl + 1) ++ jdump x (lvl + 1) ++ jdumpTail xs (lvl + 1) ++ jws lvl ++ [']'])
  | .jobj [], _ => ['{', '}']
  | .jobj (kv :: fs), lvl =>
    '{' :: (jws (lvl + 1) ++ dumpStr kv.1 ++ ':' :: ' ' :: jdump kv.2 (lvl + 1)
      ++ jdumpFieldsTail fs (lvl + 1) ++ jws lvl ++ ['}'])

/-- Second and later array items: comma, newline-indent, item. -/
def jdumpTail : List JVal → Nat → List Char
  | [], _ => []
  | x :: xs, lvl => ',' :: (jws lvl ++ jdump x lvl ++ jdumpTail xs lvl)

/-- Second and later object members: comma, newline-indent, key, `: `, value. -/
def jdumpFieldsTail : List (String × JVal) → Nat → List Char
  | [], _ => []
  | kv :: fs, lvl =>
    ',' :: (jws lvl ++ dumpStr kv.1 ++ ':' :: ' ' :: jdump kv.2 lvl ++ jdumpFieldsTail fs lvl)

end

/-- The value of a hexadecimal digit character. -/
def hexv (c : Char) : Option Nat :=
  if '0' ≤ c ∧ c ≤ '9' then some (c.toNat - 48)
  else if 'a' ≤ c ∧ c ≤ 'f' then some (c.toNat - 87)
  else if 'A' ≤ c ∧ c ≤ 'F' then some (c.toNat - 55)
  else none

/-- The character a two-character JSON escape denotes. -/
def unesc (e : Char) : Option Char :=
  if e = '"' then some '"'
  else if e = '\\' then some '\\'
  else if e = '/' then some '/'
  else if e = 'n' then some '\n'
  else if e = 't' then some '\t'
  else if e = 'r' then some '\r'
  else if e = 'b' then some (Char.ofNat 8)
  else if e = 'f' then some (Char.ofNat 12)
  else none

/-- Read a JSON string body up to its closing quote, undoing escapes. -/
def strBody : List Char → Option (List Char × List Char)
  | [] => none
  | c :: rest =>
    if c = '"' then some ([], rest)
    else if c = '\\' then
      match rest with
      | [] => none
      | e :: r2 =>
        if e = 'u' then
          match r2 with
          | a :: b :: c3 :: d :: r3 =>
            (match hexv a, hexv b, hexv c3, hexv d with
             | some va, some vb, some vc, some vd =>
               (strBody r3).map (fun p =>
                 (Char.ofNat (((va * 16 + vb) * 16 + vc) * 16 + vd) :: p.1, p.2))
             | _, _, _, _ => none)
          | _ => none
        else (unesc e).bind (fun u => (strBody r2).map (fun p => (u :: p.1, p.2)))
    else (strBody rest).map (fun p => (c :: p.1, p.2))

/-- The span of leading decimal digits and the remainder. -/
def digitSpan : List Char → List Char × List Char
  | [] => ([], [])
  | c :: cs => if c.isDigit then ((digitSpan cs).1.cons c, (digitSpan cs).2) else ([], c :: cs)

/-- Lex the integer part of a number token after the optional sign: the
JSON grammar `0|[1-9][0-9]*` (a leading zero stands alone). -/
def lexInt : List Char → Option (List Char × List Char)
  | [] => none
  | c :: cs =>
    if c.isDigit then
      if c = '0' then some (['0'], cs)
      else some ((digitSpan (c :: cs)).1, (digitSpan (c :: cs)).2)
    else none

/-- Lex an optional fraction `[.][0-9]+` (the dot is consumed only when a
digit follows, as the regex backtracks otherwise). -/
def lexFrac : List Char → Option (List Char) × List Char
  | [] => (none, [])
  | c :: cs =>
    if c = '.' then
      match cs with
      | [] => (none, [c])
      | d :: ds =>
        if d.isDigit then (some (digitSpan (d :: ds)).1, (digitSpan (d :: ds)).2)
        else (none, c :: d :: ds)
    else (none, c :: cs)

/-- Lex an optional exponent `[eE][+-]?[0-9]+` into its integer value (the
marker is consumed only when digits follow). -/
def lexExp : List Char → Option Int × List Char
  | [] => (none, [])
  | c :: cs =>
    if c = 'e' ∨ c = 'E' then
      match cs with
      | [] => (none, [c])
      | d :: ds =>
        if d.isDigit then
          (some ((digitsVal (digitSpan (d :: ds)).1 : Int)), (digitSpan (d :: ds)).2)
        else if d = '+' then
          match ds with
          | [] => (none, c :: d :: ds)
          | d2 :: ds2 =>
            if d2.isDigit then
              (some ((digitsVal (digitSpan (d2 :: ds2)).1 : Int)), (digitSpan (d2 :: ds2)).2)
            else (none, c :: d :: ds)
        else if d = '-' then
          match ds with
          | [] => (none, c :: d :: ds)
          | d2 :: ds2 =>
            if d2.isDigit then
              (some (-(digitsVal (digitSpan (d2 :: ds2)).1 : Int)), (digitSpan (d2 :: ds2)).2)
            else (none, c :: d :: ds)
        else (none, c :: cs)
    else (none, c :: cs)

/-- The exact rational a number token denotes: the digits of the integer
and fraction parts scaled by the exponent. -/
def tokenMag (ip frac : List Char) (expv : Int) : ℚ :=
  ((digitsVal ip * 10 ^ frac.length + digitsVal frac : Nat) : ℚ)
    * qpow10 (expv - frac.length)

/-- `json.load`'s number token (the regex
`-?(0|[1-9]d*)([.]d+)?([eE][+-]?d+)?` with `d` a digit): read as an `int`
when neither fraction nor exponent is present, else as a correctly rounded
`float` of the exact decimal value. -/
def jparseNumber (cs : List Char) : Option (JVal × List Char) :=
  match cs with
  | [] => none
  | c :: r =>
    let sign := c = '-'
    let body := if sign then r else c :: r
    match lexInt body with
    | none => none
    | some ip =>
      match lexFrac ip.2 with
      | (fo, r2) =>
        match lexExp r2 with
        | (eo, r3) =>
          if fo = none ∧ eo = none then
            some (.jint (if sign then -(digitsVal ip.1 : Int) else (digitsVal ip.1 : Int)), r3)
          else
            some (.jfloat (mkFloat sign (roundMag (tokenMag ip.1 (fo.getD []) (eo.getD 0)))), r3)

/-- The scanner's last resort, mirroring its order: a number token, else
one of the constants `NaN`, `Infinity`, `-Infinity`. -/
def jparseNumConst (cs : List Char) : Option (JVal × List Char) :=
  match jparseNumber cs with
  | some p => some p
  | none =>
    match cs with
    | [] => none
    | c :: r =>
      if c = 'N' then
        match r with
        | 'a' :: 'N' :: r2 => some (.jfloat .nan, r2)
        | _ => none
      else if c = 'I' then
        match r with
        | 'n' :: 'f' :: 'i' :: 'n' :: 'i' :: 't' :: 'y' :: r2 => some (.jfloat (.inf false), r2)
        | _ => none
      else if c = '-' then
        match r with
        | 'I' :: 'n' :: 'f' :: 'i' :: 'n' :: 'i' :: 't' :: 'y' :: r2 => some (.jfloat (.inf true), r2)
        | _ => none
      else none

mutual

/-- Read one JSON value (`fuel` bounds the recursion; `json.load` semantics:
whitespace is skipped freely). -/
def jparse : Nat → List Char → Option (JVal × List Char)
  | 0, _ => none
  | fuel + 1, cs =>
    match jskip cs with
    | [] => none
    | c :: r =>
      if c = 'n' then
        match r with
        | 'u' :: 'l' :: 'l' :: r2 => some (.jnull, r2)
        | _ => none
      else if c = 't' then
        match r with
        | 'r' :: 'u' :: 'e' :: r2 => some (.jbool true, r2)
        | _ => none
      else if c = 'f' then
        match r with
        | 'a' :: 'l' :: 's' :: 'e' :: r2 => some (.jbool false, r2)
        | _ => none
      else if c = '"' then
        (strBody r).map (fun p => (.jstr ⟨p.1⟩, p.2))
      else if c = '[' then
        match jskip r with
        | [] => none
        | c2 :: r2 =>
          if c2 = ']' then some (.jarr [], r2)
          else (jparseElems fuel (c2 :: r2)).map (fun p => (.jarr p.1, p.2))
      else if c = '{' then
        match jskip r with
        | [] => none
        | c2 :: r2 =>
          if c2 = '}' then some (.jobj [], r2)
          else (jparseMembers fuel (c2 :: r2)).map (fun p => (.jobj p.1, p.2))
      else jparseNumConst (c :: r)

/-- Read one or more comma-separated array elements, up to `]`. -/
def jparseElems : Nat → List Char → Option (List JVal × List Char)
  | 0, _ => none
  | fuel + 1, cs =>
    (jparse fuel cs).bind (fun p =>
      match jskip p.2 with
      | [] => none
      | c :: r =>
        if c = ',' then (jparseElems fuel r).map (fun q => (p.1 :: q.1, q.2))
        else if c = ']' then some ([p.1], r)
        else none)

/-- Read one or more comma-separated object members, up to `}`. -/
def jparseMembers : Nat → List Char → Option (List (String × JVal) × List Char)
  | 0, _ => none
  | fuel + 1, cs =>
    match jskip cs with
    | [] => none
    | c :: r =>
      if c = '"' then
        (strBody r).bind (fun kp =>
          match jskip kp.2 with
          | [] => none
          | c2 :: r2 =>
            if c2 = ':' then
              (jparse fuel r2).bind (fun vp =>
                match jskip vp.2 with
                | [] => none
                | c3 :: r3 =>
                  if c3 = ',' then
                    (jparseMembers fuel r3).map (fun q => ((⟨kp.1⟩, vp.1) :: q.1, q.2))
                  else if c3 = '}' then some ([(⟨kp.1⟩, vp.1)], r3)
                  else none)
            else none)
      else none

end

/-- `OutputManager._save_json`: the file contents written for a document
dictionary. -/
def jdumps (v : JVal) : String := ⟨jdump v 0⟩

/-- `json.load` on a file's contents: one value, then only whitespace. -/
def jloads (s : String) : Option JVal :=
  match jparse (s.length + 1) s.data with
  | some p => if (jskip p.2).isEmpty then some p.1 else none
  | none => none

/-- Read every element as a dictionary. -/
def allObjs : List JVal → Option (List PyDict)
  | [] => some []
  | .jobj o :: rest => (allObjs rest).map (fun tl => o :: tl)
  | _ => none

/-- Read every element as a string. -/
def allStrs : List JVal → Option (List String)
  | [] => some []
  | .jstr s :: rest => (allStrs rest).map (fun tl => s :: tl)
  | _ => none

/-- Rebuild a `ParsedDocument` from its dictionary form, when it has exactly
the shape `to_dict` produces. -/
def fromDict (v : JVal) : Option ParsedDocument := do
  let d ← match v with | .jobj fs => some fs | _ => none
  let fn ← match dGet d "filename" with | some (.jstr s) => some s | _ => none
  let ft ← match dGet d "file_type" with | some (.jstr s) => some s | _ => none
  let pa ← match dGet d "parsed_at" with | some (.jstr s) => some s | _ => none
  let md ← match dGet d "metadata" with | some (.jobj m) => some m | _ => none
  let ct ← match dGet d "content" with | some (.jobj m) => some m | _ => none
  let ts ← match dGet d "tables" with | some (.jarr xs) => some xs | _ => none
  let imgsRaw ← match dGet d "images" with | some (.jarr xs) => some xs | _ => none
  let imgs ← allObjs imgsRaw
  let errsRaw ← match dGet d "errors" with | some (.jarr xs) => some xs | _ => none
  let errs ← allStrs errsRaw
  return { filename := fn, file_type := ft, parsed_at := pa, metadata := md,
           content := ct, tables := ts, images := imgs, errors := errs }

/-! ## Spec-side predicates and concrete scenario inputs -/

/-- The spec's table invariant, first half: `len(t.data) == t.rows`. -/
def tableDataRowsOk (t : PyDict) : Bool :=
  match dGet t "rows", dGet t "data" with
  | some (.jint r), some (.jarr rows) => r == (rows.length : Int)
  | _, _ => false

/-- The spec's table invariant, second half: every row of `t.data` has exactly
`t.columns` entries. -/
def tableColumnsOk (t : PyDict) : Bool :=
  match dGet t "columns", dGet t "data" with
  | some (.jint c), some (.jarr rows) =>
    rows.all (fun row => match row with | .jarr cells => (cells.length : Int) == c | _ => false)
  | _, _ => false

/-- The spec's full table invariant. -/
def tableInvariantOk (t : PyDict) : Bool := tableDataRowsOk t && tableColumnsOk t

/-- Scenario B's worksheet: rows `[["Name","Age"],["Ana","30"],[None,None]]`. -/
def sheetScenarioB : Worksheet :=
  ⟨"Sheet1", 3, 2, fun r c =>
    (([[JVal.jstr "Name", JVal.jstr "Age"],
       [JVal.jstr "Ana", JVal.jstr "30"],
       [JVal.jnull, JVal.jnull]].getD r []).getD c JVal.jnull)⟩

/-- Scenario C's pages: text extraction raises on page 2 of 3. -/
def pdfPagesRaising : List PdfPage :=
  [⟨.ok (some "alpha"), none⟩, ⟨.error "boom", none⟩, ⟨.ok (some "gamma"), none⟩]

/-- The document Scenario C's parse returns. -/
def pdfDocRaising : ParsedDocument :=
  pdfParse "doc.pdf" "t0" (.ok [("page_count", .jint 3)]) pdfPagesRaising (.ok [])

/-- A concrete Word document with empty `tables`, for the tabular fallback. -/
def exampleWordDoc : ParsedDocument :=
  { filename := "report.docx"
    file_type := "word"
    parsed_at := "2024-01-01T00:00:00"
    metadata := [("author", .jstr "Ana"), ("paragraph_count", .jint 1)]
    content := [("paragraphs", .jarr [.jobj
        [("index", .jint 0), ("text", .jstr "Hello"), ("style", .jstr "Normal")]]),
      ("sections", .jarr [])]
    tables := []
    images := []
    errors := [] }

/-- A two-image document for the enrichment frame property: the first image
carries a blob, the second does not. -/
def exampleImagesDoc : ParsedDocument :=
  { filename := "deck.pptx"
    file_type := "powerpoint"
    parsed_at := "2024-01-01T00:00:00"
    content := [("slide_count", .jint 1)]
    images := [[("name", .jstr "Picture 1"), ("blob", .jstr "QUJD"),
                ("content_type", .jstr "image/png")],
               [("name", .jstr "Picture 2"), ("width", .jint 3)]]
    errors := [] }

/-- A remainder that cannot extend a digit run: empty or starting with a
non-digit. -/
def noDigitLead : List Char → Bool
  | [] => true
  | c :: _ => !c.isDigit

/-- A remainder that cannot extend a dumped number token: empty or starting
with a character that is no digit, no dot and no exponent marker. Every
character that can follow a value in dumped output (a newline, a comma, a
closing bracket or brace) qualifies. -/
def restSafe : List Char → Bool
  | [] => true
  | c :: _ => !(c.isDigit || c = '.' || c = 'e' || c = 'E')

mutual

/-- Every float of a value is a canonical binary64 encoding — true of every
dictionary built from real `float` objects. -/
def JVal.okB : JVal → Bool
  | .jfloat f => f.okB
  | .jarr xs => JVal.okBElems xs
  | .jobj fs => JVal.okBFields fs
  | _ => true

/-- `JVal.okB` over a list of elements. -/
def JVal.okBElems : List JVal → Bool
  | [] => true
  | x :: xs => x.okB && JVal.okBElems xs

/-- `JVal.okB` over the values of a field list. -/
def JVal.okBFields : List (String × JVal) → Bool
  | [] => true
  | kv :: fs => kv.2.okB && JVal.okBFields fs

end

/-- Every float of a document is a canonical binary64 encoding. -/
def docOk (d : ParsedDocument) : Bool := (toDict d).okB

/-- A document carrying floats (a PDF page width/height in points), for the
round-trip witness: `612.0 = 5383208949951488 * 2 ^ -43` and
`-11.5 = -(6473924464345088 * 2 ^ -49)`. -/
def exampleFloatDoc : ParsedDocument :=
  { filename := "page.pdf"
    file_type := "pdf"
    parsed_at := "2024-01-01T00:00:00"
    metadata := [("page_count", .jint 1)]
    content := [("pages", .jarr [.jobj
        [("page_number", .jint 1), ("text", .jstr "hi"),
         ("width", .jfloat (.finite false 5383208949951488 (-43))),
         ("height", .jfloat (.finite true 6473924464345088 (-49)))]])]
    tables := []
    images := []
    errors := [] }

/-! # Theorems -/

/-! ## Small dictionary lemmas -/

theorem dGet_cons_eq {k : String} {v : JVal} {d : PyDict} :
    dGet ((k, v) :: d) k = some v := by
  simp [dGet]

theorem dGet_cons_ne {k1 k2 : String} {v : JVal} {d : PyDict} (h : ¬ (k1 = k2)) :
    dGet ((k1, v) :: d) k2 = dGet d k2 := by
  simp [dGet, List.find?, h]

theorem dKeys_dSet_mem {d : PyDict} {k m : String} {v : JVal}
    (h : m ∈ dKeys (dSet d k v)) : m ∈ dKeys d ∨ m = k := by
  unfold dSet at h
  split at h
  · left
    unfold dKeys at h ⊢
    rw [List.map_map] at h
    rcases List.mem_map.mp h with ⟨kv, hkv, hm⟩
    refine List.mem_map.mpr ⟨kv, hkv, ?_⟩
    by_cases he : kv.1 = k
    · simpa [Function.comp, he] using hm.symm ▸ (by simp [Function.comp, he] : _)
    · simpa [Function.comp, he] using hm
  · unfold dKeys at h
    rw [List.map_append, List.mem_append] at h
    rcases h with h | h
    · exact Or.inl h
    · simp at h
      exact Or.inr h

/-! ## C5: zero-byte files are rejected with a size-based reason -/

/-- C5: for every existing regular file of size zero, `FileValidator.validate`
returns invalid with the size-based reason `"File is empty"`, regardless of the
extension, the size ceiling, the allow-list, and any content sniffing: the
non-empty-file check runs and fails before the extension-allowlist check. -/
theorem c5_zero_byte_rejected (maxSize : Nat) (allowed : List String)
    (magicAvailable : Bool) (sniffedMime : Option String) (f : FileInfo)
    (hex : f.fsExists = true) (hf : f.isFile = true) (hz : f.sizeBytes = 0) :
    validate maxSize allowed magicAvailable sniffedMime f = (false, some "File is empty") := by
  simp [validate, validateSize, hex, hf, hz]

/-- Witness for C5 at a zero-byte file with an unsupported extension. -/
theorem c5_zero_byte_rejected_witness :
    validate maxFileSizeBytes allSupportedExtensions true none
      ⟨true, true, 0, "empty.xyz"⟩ = (false, some "File is empty") :=
  c5_zero_byte_rejected maxFileSizeBytes allSupportedExtensions true none
    ⟨true, true, 0, "empty.xyz"⟩ rfl rfl rfl

/-! ## C6: `can_parse` is extension membership, and families are disjoint -/

/-- C6: for each format family, `can_parse(path)` is true exactly when the
lowered suffix of the path is in that family's declared extension set from
`SUPPORTED_EXTENSIONS`, and false whenever the suffix belongs to a different
family's set. -/
theorem c6_can_parse_iff (f g : Family) (p : String) :
    (canParse f p = true ↔
      (supportedExtensions f).contains (pyLower (pathSuffix p)) = true)
    ∧ (f ≠ g → (supportedExtensions g).contains (pyLower (pathSuffix p)) = true →
        canParse f p = false) := by
  constructor
  · cases f <;> simp [canParse, parserClassExtensions, supportedExtensions]
  · intro hne hg
    cases f <;> cases g <;>
      first
        | exact absurd rfl hne
        | (simp only [supportedExtensions, List.contains_eq_any_beq, List.any_cons,
             List.any_nil, Bool.or_false, beq_iff_eq, Bool.or_eq_true] at hg
           simp only [canParse, parserClassExtensions]
           first
             | (rcases hg with h | h <;> (first | rw [← h] | rw [h]) <;> decide)
             | ((first | rw [← hg] | rw [hg]) <;> decide))

/-- Witness for C6: a `.docx` path is parsed by the Word family and refused by
the PDF family. -/
theorem c6_can_parse_iff_witness :
    canParse .word "report.docx" = true ∧ canParse .pdf "report.docx" = false := by
  refine ⟨?_, ?_⟩
  · exact (c6_can_parse_iff .word .word "report.docx").1.mpr (by decide)
  · exact (c6_can_parse_iff .pdf .word "report.docx").2 (by decide) (by decide)

/-! ## C7: the "Heading 2" scenario -/

/-- C7: a Word paragraph styled `Heading 2` with text `Budget` yields a
paragraph entry with `is_heading=true`, `heading_level=2` and `text="Budget"`
(the level parse falling back to 1 only for non-numeric suffixes), and the
markup renderer emits that entry as a third-level `###` header. -/
theorem c7_heading_scenario :
    wordExtractParagraphs [⟨"Budget", some "Heading 2"⟩] =
      [[("index", .jint 0), ("text", .jstr "Budget"), ("style", .jstr "Heading 2"),
        ("is_heading", .jbool true), ("heading_level", .jint 2)]]
    ∧ wordToMarkdown [("paragraphs", .jarr [.jobj
        [("index", .jint 0), ("text", .jstr "Budget"), ("style", .jstr "Heading 2"),
         ("is_heading", .jbool true), ("heading_level", .jint 2)]])] =
      ["## Content\n", "### Budget\n"]
    ∧ wordExtractParagraphs [⟨"Budget", some "HeadingX"⟩] =
      [[("index", .jint 0), ("text", .jstr "Budget"), ("style", .jstr "HeadingX"),
        ("is_heading", .jbool true), ("heading_level", .jint 1)]] :=
  ⟨rfl, rfl, rfl⟩

/-! ## C8: the blank-row scenario -/

/-- C8: an Excel sheet whose rows are `[["Name","Age"],["Ana","30"],[None,None]]`
yields exactly one table, with `headers=["Name","Age"]` and
`data=[["Ana","30"]]`: the first non-empty row becomes the header and the fully
blank row is dropped. -/
theorem c8_excel_scenario :
    excelExtractTables [sheetScenarioB] =
      [[("name", .jstr "Sheet1"), ("rows", .jint 3), ("columns", .jint 2),
        ("headers", .jarr [.jstr "Name", .jstr "Age"]),
        ("data", .jarr [.jarr [.jstr "Ana", .jstr "30"]])]] :=
  rfl

/-! ## C1: the table invariant -/

theorem excelHeaderSplit_data_mem :
    ∀ (rows : List (List JVal)) (fr : Bool) (row : List JVal),
      row ∈ (excelHeaderSplit rows fr).2 → row ∈ rows := by
  intro rows
  induction rows with
  | nil => intro fr row h; simp [excelHeaderSplit] at h
  | cons r rest ih =>
    intro fr row h
    by_cases hv : rowHasValue r
    · cases fr with
      | true =>
        simp only [excelHeaderSplit, hv, if_true] at h
        exact List.mem_cons_of_mem r (ih false row h)
      | false =>
        simp [excelHeaderSplit, hv] at h
        rcases h with h | h
        · exact h ▸ List.mem_cons_self r rest
        · exact List.mem_cons_of_mem r (ih false row h)
    · simp [excelHeaderSplit, hv] at h
      exact List.mem_cons_of_mem r (ih fr row h)

theorem excelHeaderSplit_data_length :
    ∀ (rows : List (List JVal)) (fr : Bool),
      (excelHeaderSplit rows fr).2.length =
        if fr then rows.countP rowHasValue - 1 else rows.countP rowHasValue := by
  intro rows
  induction rows with
  | nil => intro fr; cases fr <;> simp [excelHeaderSplit]
  | cons r rest ih =>
    intro fr
    by_cases hv : rowHasValue r
    · cases fr with
      | true => simp [excelHeaderSplit, hv, ih false, List.countP_cons]
      | false => simp [excelHeaderSplit, hv, ih false, List.countP_cons]
    · cases fr with
      | true => simp [excelHeaderSplit, hv, ih true, List.countP_cons]
      | false => simp [excelHeaderSplit, hv, ih false, List.countP_cons]

/-- Every table the Word parser builds satisfies the invariant, because
`python-docx` exposes a full `rows × columns` grid. -/
theorem wordExtractTables_invariant (wts : List DocxTable) :
    (wordExtractTables wts).all tableInvariantOk = true := by
  rw [List.all_eq_true]
  intro t ht
  rcases List.mem_map.mp ht with ⟨it, _, rfl⟩
  simp [tableInvariantOk, tableDataRowsOk, tableColumnsOk, dGet, List.all_eq_true]

/-- Every table the PowerPoint parser builds satisfies the invariant, for the
same grid reason. -/
theorem pptExtractTables_invariant (slides : List PptSlide) :
    (pptExtractTables slides).all tableInvariantOk = true := by
  rw [List.all_eq_true]
  intro t ht
  simp only [pptExtractTables, List.mem_flatten] at ht
  rcases ht with ⟨l, hl, htl⟩
  rcases List.mem_map.mp hl with ⟨isl, _, rfl⟩
  rcases List.mem_filterMap.mp htl with ⟨sh, _, hsh⟩
  rcases Option.map_eq_some'.mp hsh with ⟨tg, _, rfl⟩
  simp [pptTableFromShape, tableInvariantOk, tableDataRowsOk, tableColumnsOk,
    dGet, List.all_eq_true]

/-- Counterexample to C1 as stated: the table the Excel parser produces for
Scenario B's sheet has `rows = 3` but only one data row, so the claimed
invariant `len(t.data) == t.rows` fails on a parser-produced table. -/
theorem c1_counterexample :
    (excelExtractTables [sheetScenarioB]).all tableInvariantOk = false := rfl

/-- C1 amended: Word and PowerPoint tables satisfy the invariant
(`len(data) == rows` and every row has `columns` entries), and PDF produces no
tables; for Excel only the columns half holds — every data row has `columns`
entries — while the `rows` field is the sheet's `max_row` and the data length
is the number of non-empty rows minus the header row, so `len(data) == rows`
fails whenever the sheet has a header, a blank row, or both. -/
theorem c1_amended (wts : List DocxTable) (slides : List PptSlide)
    (sheets : List Worksheet) (s : Worksheet) :
    (wordExtractTables wts).all tableInvariantOk = true
    ∧ (pptExtractTables slides).all tableInvariantOk = true
    ∧ pdfExtractTables = []
    ∧ (excelExtractTables sheets).all tableColumnsOk = true
    ∧ dGet (excelSheetTable s) "rows" = some (.jint s.maxRow)
    ∧ (excelHeaderSplit (iterRows s) true).2.length =
        (iterRows s).countP rowHasValue - 1 := by
  refine ⟨wordExtractTables_invariant wts, pptExtractTables_invariant slides, rfl, ?_, ?_, ?_⟩
  · rw [List.all_eq_true]
    intro t ht
    rcases List.mem_filterMap.mp ht with ⟨sh, _, hts⟩
    by_cases hc : sh.maxRow ≠ 0 ∧ sh.maxCol ≠ 0
    · rw [if_pos hc] at hts
      cases hts
      simp only [excelSheetTable, tableColumnsOk, dGet, List.find?]
      simp [List.all_eq_true]
      intro row hrow
      have hmem := excelHeaderSplit_data_mem (iterRows sh) true row hrow
      rcases List.mem_map.mp hmem with ⟨i, _, rfl⟩
      simp
    · rw [if_neg hc] at hts
      cases hts
  · simp [excelSheetTable, dGet]
  · simpa using excelHeaderSplit_data_length (iterRows s) true

/-! ## C2: a raising page aborts content extraction -/

/-- Counterexample to C2 as stated: when page 2's text extraction raises, the
returned document has no `content.pages` at all (the whole content assignment
is abandoned), even though the message does reach `errors`. -/
theorem c2_counterexample :
    (¬ ∃ ps, dGet pdfDocRaising.content "pages" = some (.jarr ps) ∧ ps.length = 3)
    ∧ pdfDocRaising.errors = ["boom"] := by
  constructor
  · rintro ⟨ps, hp, -⟩
    have h0 : dGet pdfDocRaising.content "pages" = none := rfl
    rw [h0] at hp
    cases hp
  · rfl

/-- C2 amended: if page 2's extraction raises, `parse()` still returns a
document and appends the message to `errors`, but `content` is left as the
empty dictionary (metadata, already assigned, survives); the empty-string
degradation only applies when `extract_text()` returns no text rather than
raising, in which case all 3 pages appear and page 2's `text` is `""`. -/
theorem c2_amended (fn ts e : String) (m : PyDict) (t1 t3 : Option String)
    (mb1 mb2 mb3 : Option (Int × Int)) (imgs : List PyDict) :
    pdfParse fn ts (.ok m) [⟨.ok t1, mb1⟩, ⟨.error e, mb2⟩, ⟨.ok t3, mb3⟩] (.ok imgs) =
      { filename := fn, file_type := "pdf", parsed_at := ts, metadata := m,
        content := [], tables := [], images := [], errors := [e] }
    ∧ (pdfParse fn ts (.ok m) [⟨.ok t1, mb1⟩, ⟨.ok none, mb2⟩, ⟨.ok t3, mb3⟩] (.ok imgs)).content =
      [("total_pages", .jint 3),
       ("pages", .jarr [.jobj (pdfPageEntry 0 ⟨.ok t1, mb1⟩ t1),
                        .jobj (pdfPageEntry 1 ⟨.ok none, mb2⟩ none),
                        .jobj (pdfPageEntry 2 ⟨.ok t3, mb3⟩ t3)])]
    ∧ dGet (pdfPageEntry 1 ⟨.ok none, mb2⟩ none) "text" = some (.jstr "")
    ∧ (pdfParse fn ts (.ok m) [⟨.ok t1, mb1⟩, ⟨.ok none, mb2⟩, ⟨.ok t3, mb3⟩] (.ok imgs)).errors
        = [] := by
  refine ⟨?_, ?_, ?_, ?_⟩
  · simp [pdfParse, pdfExtractPages, pdfExtractPagesFrom, Except.map]
  · simp [pdfParse, pdfExtractPages, pdfExtractPagesFrom, Except.map]
  · cases mb2 <;> simp [pdfPageEntry, dGet]
  · simp [pdfParse, pdfExtractPages, pdfExtractPagesFrom, Except.map]

/-! ## C3: `parse()` returns a document; exceptions land in `errors` -/

/-- C3: each of the four `parse()` skeletons is total — it always returns a
`ParsedDocument` — and its `errors` list is exactly the stringified first
exception of the extraction sequence when one raises, and empty otherwise. -/
theorem c3_parse_never_raises
    (fn ts : String)
    (mp : Except String PyDict) (pgs : List PdfPage) (pimgs : Except String (List PyDict))
    (mw : Except String PyDict) (paras secs wtbl wimg : Except String (List PyDict))
    (me : Except String PyDict) (snames : List String) (scont etbl : Except String (List PyDict))
    (mq : Except String PyDict) (slc : Nat) (sls qtbl qimg : Except String (List PyDict)) :
    (pdfParse fn ts mp pgs pimgs).errors = (pdfFirstErr mp pgs pimgs).toList
    ∧ (wordParse fn ts mw paras secs wtbl wimg).errors
        = (wordFirstErr mw paras secs wtbl wimg).toList
    ∧ (excelParse fn ts me snames scont etbl).errors = (excelFirstErr me scont etbl).toList
    ∧ (pptParse fn ts mq slc sls qtbl qimg).errors = (pptFirstErr mq sls qtbl qimg).toList := by
  refine ⟨?_, ?_, ?_, ?_⟩
  · cases mp <;> cases hp : pdfExtractPages pgs <;> cases pimgs <;>
      simp [pdfParse, pdfFirstErr, hp]
  · cases mw <;> cases paras <;> cases secs <;> cases wtbl <;> cases wimg <;>
      simp [wordParse, wordFirstErr]
  · cases me <;> cases scont <;> cases etbl <;> simp [excelParse, excelFirstErr]
  · cases mq <;> cases sls <;> cases qtbl <;> cases qimg <;> simp [pptParse, pptFirstErr]

/-! ## C10: enrichment only touches images, and only those with blobs -/

theorem analyzeOneImage_noblob {o : VisionOutcome} {img : PyDict}
    (h : hasBlob img = false) : analyzeOneImage o img = img := by
  simp [analyzeOneImage, h]

theorem analyzeOneImage_keys {o : VisionOutcome} {img : PyDict} {k : String}
    (h : k ∈ dKeys (analyzeOneImage o img)) :
    k ∈ dKeys img ∨ k ∈ (["description", "ai_analyzed", "ai_error"] : List String) := by
  unfold analyzeOneImage at h
  by_cases hb : hasBlob img
  · rw [if_pos hb] at h
    cases o with
    | ok desc =>
      rcases dKeys_dSet_mem h with h | h
      · rcases dKeys_dSet_mem h with h | h
        · exact Or.inl h
        · exact Or.inr (by simp [h])
      · exact Or.inr (by simp [h])
    | fail err =>
      rcases dKeys_dSet_mem h with h | h
      · rcases dKeys_dSet_mem h with h | h
        · exact Or.inl h
        · exact Or.inr (by simp [h])
      · exact Or.inr (by simp [h])
    | exn m =>
      rcases dKeys_dSet_mem h with h | h
      · rcases dKeys_dSet_mem h with h | h
        · exact Or.inl h
        · exact Or.inr (by simp [h])
      · exact Or.inr (by simp [h])
  · rw [if_neg hb] at h
    exact Or.inl h

/-- C10: enrichment leaves `filename`, `file_type`, `parsed_at`, `metadata`,
`content`, `tables` and `errors` untouched and preserves the image count; an
image without a truthy blob comes back entirely unmodified, and any image's
keys grow by at most `description`, `ai_analyzed` and `ai_error`. -/
theorem c10_image_frame (available : Bool) (chartSvc imageSvc : Nat → VisionOutcome)
    (d : ParsedDocument) :
    (analyzeDocumentImages available chartSvc imageSvc d).filename = d.filename
    ∧ (analyzeDocumentImages available chartSvc imageSvc d).file_type = d.file_type
    ∧ (analyzeDocumentImages available chartSvc imageSvc d).parsed_at = d.parsed_at
    ∧ (analyzeDocumentImages available chartSvc imageSvc d).metadata = d.metadata
    ∧ (analyzeDocumentImages available chartSvc imageSvc d).content = d.content
    ∧ (analyzeDocumentImages available chartSvc imageSvc d).tables = d.tables
    ∧ (analyzeDocumentImages available chartSvc imageSvc d).errors = d.errors
    ∧ (analyzeDocumentImages available chartSvc imageSvc d).images.length = d.images.length
    ∧ ∀ i : Nat,
        (hasBlob (d.images.getD i []) = false →
          (analyzeDocumentImages available chartSvc imageSvc d).images.getD i []
            = d.images.getD i [])
        ∧ (∀ k,
            k ∈ dKeys ((analyzeDocumentImages available chartSvc imageSvc d).images.getD i []) →
            k ∈ dKeys (d.images.getD i [])
              ∨ k ∈ (["description", "ai_analyzed", "ai_error"] : List String)) := by
  cases available with
  | false =>
    exact ⟨rfl, rfl, rfl, rfl, rfl, rfl, rfl, rfl,
      fun i => ⟨fun _ => rfl, fun k hk => Or.inl hk⟩⟩
  | true =>
    refine ⟨rfl, rfl, rfl, rfl, rfl, rfl, rfl, ?_, ?_⟩
    · simp [analyzeDocumentImages]
    · intro i
      have him : (analyzeDocumentImages true chartSvc imageSvc d).images[i]? =
          d.images[i]?.map (fun img =>
            analyzeOneImage (if mentionsChart img then chartSvc i else imageSvc i) img) := by
        simp [analyzeDocumentImages, List.getElem?_enum]
        cases d.images[i]? <;> rfl
      cases hd : d.images[i]? with
      | none =>
        rw [hd, Option.map_none'] at him
        constructor
        · intro _
          rw [List.getD_eq_getElem?_getD, List.getD_eq_getElem?_getD, him, hd]
        · intro k hk
          rw [List.getD_eq_getElem?_getD, him] at hk
          exact Or.inl (by rw [List.getD_eq_getElem?_getD, hd]; exact hk)
      | some img =>
        rw [hd, Option.map_some'] at him
        constructor
        · intro hb
          rw [List.getD_eq_getElem?_getD, List.getD_eq_getElem?_getD, him, hd]
          rw [List.getD_eq_getElem?_getD, hd] at hb
          simp only [Option.getD_some] at hb ⊢
          exact analyzeOneImage_noblob hb
        · intro k hk
          rw [List.getD_eq_getElem?_getD, him] at hk
          rw [List.getD_eq_getElem?_getD, hd]
          simp only [Option.getD_some] at hk ⊢
          exact analyzeOneImage_keys hk

/-- Witness for C10 at a two-image document with a failing vision service: the
blob-less second image comes back untouched, and `errors` is unchanged. -/
theorem c10_image_frame_witness :
    (analyzeDocumentImages true (fun _ => .fail .jnull) (fun _ => .fail .jnull)
      exampleImagesDoc).errors = exampleImagesDoc.errors
    ∧ (analyzeDocumentImages true (fun _ => .fail .jnull) (fun _ => .fail .jnull)
        exampleImagesDoc).images.getD 1 [] = exampleImagesDoc.images.getD 1 [] := by
  have h := c10_image_frame true (fun _ => .fail .jnull) (fun _ => .fail .jnull) exampleImagesDoc
  exact ⟨h.2.2.2.2.2.2.1, (h.2.2.2.2.2.2.2.2 1).1 (by decide)⟩

/-! ## C9: the tabular fallback for documents without tables -/

/-- C9: saving a document whose `tables` list is empty to the tabular format
produces a two-column `Key`/`Value` dump of the flattened document; in
particular the concrete Word document `report.docx` yields a non-empty dump
with a dotted `content.paragraphs` entry (its paragraph list stringified as a
single value). -/
theorem c9_csv_fallback (d : ParsedDocument) (h : d.tables = []) :
    (saveCsvRows (toDictPairs d)).head? = some ["Key", "Value"]
    ∧ (∀ row ∈ saveCsvRows (toDictPairs d), row.length = 2)
    ∧ ((saveCsvRows (toDictPairs exampleWordDoc)).any
        (fun row => row.headD "" == "content.paragraphs")) = true
    ∧ saveCsvRows (toDictPairs exampleWordDoc) ≠ [] := by
  have ht : saveCsvRows (toDictPairs d) =
      ["Key", "Value"] :: (flattenDict (toDictPairs d)).map (fun kv => [kv.1, pyStr kv.2]) := by
    simp [saveCsvRows, toDictPairs, dGet, h]
  refine ⟨?_, ?_, ?_, ?_⟩
  · rw [ht]; rfl
  · intro row hrow
    rw [ht] at hrow
    rcases List.mem_cons.mp hrow with hrow | hrow
    · rw [hrow]; rfl
    · rcases List.mem_map.mp hrow with ⟨kv, _, rfl⟩
      rfl
  · decide
  · decide

/-- Witness for C9 at the concrete Word document with empty `tables`. -/
theorem c9_csv_fallback_witness :
    (saveCsvRows (toDictPairs exampleWordDoc)).head? = some ["Key", "Value"]
    ∧ ((saveCsvRows (toDictPairs exampleWordDoc)).any
        (fun row => row.headD "" == "content.paragraphs")) = true := by
  have h := c9_csv_fallback exampleWordDoc rfl
  exact ⟨h.1, h.2.2.1⟩

/-! ## C4 groundwork: whitespace and digit characters -/

theorem jskip_cons_not {c : Char} {cs : List Char} (h : isJWs c = false) :
    jskip (c :: cs) = c :: cs := by
  simp [jskip, h]

theorem jskip_replicate_space (n : Nat) (cs : List Char) :
    jskip (List.replicate n ' ' ++ cs) = jskip cs := by
  induction n with
  | zero => rfl
  | succ m ih => simpa [List.replicate_succ, jskip, isJWs] using ih

theorem jskip_jws (lvl : Nat) (cs : List Char) : jskip (jws lvl ++ cs) = jskip cs := by
  simp [jws, jskip, isJWs, jskip_replicate_space]

theorem digitCh_spec (d : Nat) (h : d < 10) :
    (digitCh d).isDigit = true ∧ (digitCh d).toNat - 48 = d := by
  interval_cases d <;> exact ⟨by decide, by decide⟩

theorem isDigit_not_special {c : Char} (h : c.isDigit = true) :
    isJWs c = false ∧ c ≠ 'n' ∧ c ≠ 't' ∧ c ≠ 'f' ∧ c ≠ '"' ∧ c ≠ '[' ∧ c ≠ '{'
      ∧ c ≠ '-' ∧ c ≠ ']' ∧ c ≠ '}' ∧ c ≠ ',' := by
  refine ⟨?_, ?_, ?_, ?_, ?_, ?_, ?_, ?_, ?_, ?_, ?_⟩
  · by_cases hw : isJWs c = true
    · simp only [isJWs, Bool.or_eq_true, decide_eq_true_eq] at hw
      rcases hw with ((hw | hw) | hw) | hw <;> subst hw <;> exact absurd h (by decide)
    · simpa using hw
  all_goals (intro heq; subst heq; exact absurd h (by decide))

theorem natChars_digits (n : Nat) : ∀ c ∈ natChars n, c.isDigit = true := by
  intro c hc
  unfold natChars at hc
  by_cases h0 : n = 0
  · simp [h0] at hc
    subst hc
    decide
  · rw [if_neg h0, List.mem_reverse] at hc
    rcases List.mem_map.mp hc with ⟨d, hd, rfl⟩
    exact (digitCh_spec d (Nat.digits_lt_base (by norm_num) hd)).1

theorem natChars_ne_nil (n : Nat) : natChars n ≠ [] := by
  unfold natChars
  by_cases h0 : n = 0
  · simp [h0]
  · rw [if_neg h0]
    simp [Nat.digits_ne_nil_iff_ne_zero.mpr h0]

theorem natChars_cons (n : Nat) :
    ∃ c t, natChars n = c :: t ∧ c.isDigit = true := by
  cases hn : natChars n with
  | nil => exact absurd hn (natChars_ne_nil n)
  | cons c t =>
    exact ⟨c, t, rfl, natChars_digits n c (hn ▸ List.mem_cons_self c t)⟩

theorem restSafe_facts {c : Char} {cs : List Char} (h : restSafe (c :: cs) = true) :
    c.isDigit = false ∧ c ≠ '.' ∧ c ≠ 'e' ∧ c ≠ 'E' := by
  simp only [restSafe, Bool.not_eq_true', Bool.or_eq_false_iff,
    decide_eq_false_iff_not] at h
  exact ⟨h.1.1.1, h.1.1.2, h.1.2, h.2⟩

theorem restSafe_noDigitLead {cs : List Char} (h : restSafe cs = true) :
    noDigitLead cs = true := by
  cases cs with
  | nil => rfl
  | cons c cs =>
    simp only [noDigitLead, Bool.not_eq_true']
    exact (restSafe_facts h).1

theorem digitSpan_stop {cs : List Char} (h : noDigitLead cs = true) :
    digitSpan cs = ([], cs) := by
  cases cs with
  | nil => rfl
  | cons c cs =>
    simp only [noDigitLead, Bool.not_eq_true'] at h
    simp [digitSpan, h]

theorem digitSpan_run {D rest : List Char} (hD : ∀ c ∈ D, c.isDigit = true)
    (hr : noDigitLead rest = true) : digitSpan (D ++ rest) = (D, rest) := by
  induction D with
  | nil => simpa using digitSpan_stop hr
  | cons c D ih =>
    have hc := hD c (by simp)
    simp [digitSpan, hc, ih (fun x hx => hD x (by simp [hx]))]

theorem foldl_acc10 (ds : List Char) (acc : Nat) :
    ds.foldl (fun a c => a * 10 + (c.toNat - 48)) acc
      = acc * 10 ^ ds.length + digitsVal ds := by
  induction ds generalizing acc with
  | nil => simp [digitsVal]
  | cons c ds ih =>
    show List.foldl _ (acc * 10 + (c.toNat - 48)) ds = _
    rw [ih]
    have hv : digitsVal (c :: ds) = (c.toNat - 48) * 10 ^ ds.length + digitsVal ds := by
      show List.foldl _ (0 * 10 + (c.toNat - 48)) ds = _
      rw [ih]
      ring_nf
    rw [hv]
    simp [List.length_cons, pow_succ]
    ring

theorem digitsVal_append (A B : List Char) :
    digitsVal (A ++ B) = digitsVal A * 10 ^ B.length + digitsVal B := by
  unfold digitsVal
  rw [List.foldl_append]
  exact foldl_acc10 B _

theorem digitsVal_cons_zero (L : List Char) : digitsVal ('0' :: L) = digitsVal L := rfl

theorem digitsVal_zeros (z : Nat) (D : List Char) :
    digitsVal (List.replicate z '0' ++ D) = digitsVal D := by
  induction z with
  | zero => simp
  | succ k ih =>
    rw [List.replicate_succ, List.cons_append, digitsVal_cons_zero]
    exact ih

theorem foldl_base10_reverse (L : List Nat) (acc : Nat) :
    L.reverse.foldl (fun a d => a * 10 + d) acc = acc * 10 ^ L.length + Nat.ofDigits 10 L := by
  induction L generalizing acc with
  | nil => simp
  | cons d L ih =>
    rw [List.reverse_cons, List.foldl_append]
    simp only [List.foldl_cons, List.foldl_nil, ih, Nat.ofDigits_cons, List.length_cons]
    ring

theorem foldl_digitCh (L : List Nat) (acc : Nat) (hL : ∀ d ∈ L, d < 10) :
    (L.map digitCh).foldl (fun a c => a * 10 + (c.toNat - 48)) acc
      = L.foldl (fun a d => a * 10 + d) acc := by
  induction L generalizing acc with
  | nil => rfl
  | cons d L ih =>
    obtain ⟨-, hval⟩ := digitCh_spec d (hL d (by simp))
    simp only [List.map_cons, List.foldl_cons, hval]
    exact ih _ (fun x hx => hL x (by simp [hx]))

theorem digitsVal_natChars (n : Nat) : digitsVal (natChars n) = n := by
  unfold natChars
  by_cases h0 : n = 0
  · simp [h0, digitsVal]
  · rw [if_neg h0, ← List.map_reverse]
    unfold digitsVal
    rw [foldl_digitCh _ 0 (fun d hd => Nat.digits_lt_base (by norm_num)
        (List.mem_reverse.mp hd)),
      foldl_base10_reverse]
    simp [Nat.ofDigits_digits]

theorem natChars_head_ne_zero (n : Nat) (h0 : n ≠ 0) :
    ∃ c t, natChars n = c :: t ∧ c.isDigit = true ∧ c ≠ '0' := by
  obtain ⟨c, t, hct, hcd⟩ := natChars_cons n
  refine ⟨c, t, hct, hcd, ?_⟩
  have hnil : Nat.digits 10 n ≠ [] := Nat.digits_ne_nil_iff_ne_zero.mpr h0
  have hlast := Nat.getLast_digit_ne_zero 10 h0
  have hhead : (natChars n).head? = some c := by rw [hct]; rfl
  have hh2 : (natChars n).head? = (Nat.digits 10 n).getLast?.map digitCh := by
    unfold natChars
    rw [if_neg h0, List.head?_reverse, List.getLast?_map]
  rw [hh2, List.getLast?_eq_getLast _ hnil] at hhead
  simp only [Option.map_some', Option.some.injEq] at hhead
  have hdlt : (Nat.digits 10 n).getLast hnil < 10 :=
    Nat.digits_lt_base (by norm_num) (List.getLast_mem hnil)
  intro hc0
  have hspec := (digitCh_spec _ hdlt).2
  rw [hhead, hc0] at hspec
  refine hlast ?_
  rw [← hspec]
  decide

theorem digitsOkB_natChars (n : Nat) (h0 : n ≠ 0) : digitsOkB (natChars n) = true := by
  obtain ⟨c, t, hct, hcd, hc0⟩ := natChars_head_ne_zero n h0
  unfold digitsOkB
  rw [hct]
  simp only [List.isEmpty_cons, Bool.not_false, Bool.true_and, Bool.and_eq_true,
    List.all_eq_true, List.head?_cons, bne_iff_ne, ne_eq, Option.some.injEq]
  exact ⟨fun x hx => natChars_digits n x (by rw [hct]; exact hx), hc0⟩

theorem lexInt_natChars (n : Nat) {rest : List Char} (hr : noDigitLead rest = true) :
    lexInt (natChars n ++ rest) = some (natChars n, rest) := by
  by_cases h0 : n = 0
  · subst h0
    show lexInt ('0' :: rest) = some (['0'], rest)
    simp [lexInt]
  · obtain ⟨c, t, hct, hcd, hc0⟩ := natChars_head_ne_zero n h0
    have hspan : digitSpan (natChars n ++ rest) = (natChars n, rest) :=
      digitSpan_run (natChars_digits n) hr
    rw [hct, List.cons_append, lexInt, if_pos hcd, if_neg hc0,
      ← List.cons_append, ← hct, hspan]

theorem lexFrac_stop {cs : List Char} (h : restSafe cs = true) :
    lexFrac cs = (none, cs) := by
  cases cs with
  | nil => rfl
  | cons c cs =>
    obtain ⟨-, hdot, -, -⟩ := restSafe_facts h
    simp [lexFrac, hdot]

theorem lexExp_stop {cs : List Char} (h : restSafe cs = true) :
    lexExp cs = (none, cs) := by
  cases cs with
  | nil => rfl
  | cons c cs =>
    obtain ⟨-, -, he, hE⟩ := restSafe_facts h
    simp [lexExp, he, hE]

theorem jparseNumber_int (n : Int) {rest : List Char} (hr : restSafe rest = true) :
    jparseNumber (intChars n ++ rest) = some (.jint n, rest) := by
  have hnd := restSafe_noDigitLead hr
  by_cases hn : n < 0
  · have harg : intChars n ++ rest = '-' :: (natChars n.natAbs ++ rest) := by
      simp [intChars, hn]
    rw [harg, jparseNumber]
    simp only [if_pos rfl, lexInt_natChars n.natAbs hnd, lexFrac_stop hr, lexExp_stop hr,
      reduceIte, digitsVal_natChars, and_self]
    simp only [Option.some.injEq, Prod.mk.injEq, JVal.jint.injEq, and_true]
    omega
  · obtain ⟨c, t, hct, hcd⟩ := natChars_cons n.natAbs
    obtain ⟨-, -, -, -, -, -, -, hnm, -, -, -⟩ := isDigit_not_special hcd
    have harg : intChars n ++ rest = c :: (t ++ rest) := by
      simp [intChars, hn, hct]
    rw [harg, jparseNumber]
    simp only [if_neg hnm]
    rw [show c :: (t ++ rest) = natChars n.natAbs ++ rest from by simp [hct]]
    simp only [lexInt_natChars n.natAbs hnd, lexFrac_stop hr, lexExp_stop hr,
      reduceIte, digitsVal_natChars, and_self]
    simp only [Option.some.injEq, Prod.mk.injEq, JVal.jint.injEq, and_true]
    omega

theorem hexv_hexCh (d : Nat) (h : d < 16) : hexv (hexCh d) = some d := by
  interval_cases d <;> decide

theorem strBody_esc (c : Char) (rest : List Char) :
    strBody (escSeq c ++ rest) = (strBody rest).map (fun p => (c :: p.1, p.2)) := by
  by_cases h1 : c = '"'
  · subst h1
    rw [show escSeq '"' = ['\\', '"'] from rfl, List.cons_append, List.cons_append,
      List.nil_append, strBody.eq_def]
    simp [unesc]
  by_cases h2 : c = '\\'
  · subst h2
    rw [show escSeq '\\' = ['\\', '\\'] from rfl, List.cons_append, List.cons_append,
      List.nil_append, strBody.eq_def]
    simp [unesc]
  by_cases h3 : c = '\n'
  · subst h3
    rw [show escSeq '\n' = ['\\', 'n'] from rfl, List.cons_append, List.cons_append,
      List.nil_append, strBody.eq_def]
    simp [unesc]
  by_cases h4 : c = '\t'
  · subst h4
    rw [show escSeq '\t' = ['\\', 't'] from rfl, List.cons_append, List.cons_append,
      List.nil_append, strBody.eq_def]
    simp [unesc]
  by_cases h5 : c = '\r'
  · subst h5
    rw [show escSeq '\r' = ['\\', 'r'] from rfl, List.cons_append, List.cons_append,
      List.nil_append, strBody.eq_def]
    simp [unesc]
  by_cases h6 : c = Char.ofNat 8
  · subst h6
    rw [show escSeq (Char.ofNat 8) = ['\\', 'b'] from rfl, List.cons_append, List.cons_append,
      List.nil_append, strBody.eq_def]
    simp [unesc]
  by_cases h7 : c = Char.ofNat 12
  · subst h7
    rw [show escSeq (Char.ofNat 12) = ['\\', 'f'] from rfl, List.cons_append, List.cons_append,
      List.nil_append, strBody.eq_def]
    simp [unesc]
  by_cases h8 : c.toNat < 32
  · have hesc : escSeq c = ['\\', 'u', '0', '0', hexCh (c.toNat / 16), hexCh (c.toNat % 16)] := by
      simp [escSeq, h1, h2, h3, h4, h5, h6, h7, h8]
    rw [hesc]
    simp only [List.cons_append, List.nil_append]
    rw [strBody.eq_def]
    have hdiv : c.toNat / 16 < 16 := by omega
    have hmod : c.toNat % 16 < 16 := Nat.mod_lt _ (by omega)
    have harith : ((0 * 16 + 0) * 16 + c.toNat / 16) * 16 + c.toNat % 16 = c.toNat := by omega
    simp only [hexv_hexCh _ hdiv, hexv_hexCh _ hmod, show hexv '0' = some 0 from rfl]
    simp [show c.toNat / 16 * 16 + c.toNat % 16 = c.toNat from by omega, Char.ofNat_toNat]
  · have hesc : escSeq c = [c] := by simp [escSeq, h1, h2, h3, h4, h5, h6, h7, h8]
    rw [hesc]
    simp only [List.cons_append, List.nil_append]
    rw [strBody.eq_def]
    simp [h1, h2]

theorem strBody_dump (cs : List Char) :
    ∀ rest, strBody ((cs.map escSeq).flatten ++ '"' :: rest) = some (cs, rest) := by
  induction cs with
  | nil =>
    intro rest
    rw [show (List.map escSeq []).flatten ++ '"' :: rest = '"' :: rest from rfl,
      strBody.eq_def]
    simp
  | cons c cs ih =>
    intro rest
    rw [List.map_cons, List.flatten_cons, List.append_assoc, strBody_esc, ih]
    rfl

theorem jws_all_ws (lvl : Nat) : ∀ c ∈ jws lvl, isJWs c = true := by
  intro c hc
  rcases List.mem_cons.mp hc with h | h
  · subst h; decide
  · rw [List.eq_of_mem_replicate h]; decide

theorem jskip_wsLead : ∀ (W cs : List Char), (∀ c ∈ W, isJWs c = true) →
    jskip (W ++ cs) = jskip cs := by
  intro W
  induction W with
  | nil => simp
  | cons c W ih =>
    intro cs hW
    rw [List.cons_append, jskip, if_pos (hW c (by simp))]
    exact ih cs (fun x hx => hW x (by simp [hx]))

theorem jparse_wsLead (fuel : Nat) (W cs : List Char)
    (hW : ∀ c ∈ W, isJWs c = true) : jparse fuel (W ++ cs) = jparse fuel cs := by
  cases fuel with
  | zero => rfl
  | succ f =>
    simp only [jparse]
    rw [jskip_wsLead W cs hW]

theorem jparseElems_wsLead (fuel : Nat) (W cs : List Char)
    (hW : ∀ c ∈ W, isJWs c = true) : jparseElems fuel (W ++ cs) = jparseElems fuel cs := by
  cases fuel with
  | zero => rfl
  | succ f =>
    simp only [jparseElems]
    rw [jparse_wsLead f W cs hW]

theorem jparseMembers_wsLead (fuel : Nat) (W cs : List Char)
    (hW : ∀ c ∈ W, isJWs c = true) : jparseMembers fuel (W ++ cs) = jparseMembers fuel cs := by
  cases fuel with
  | zero => rfl
  | succ f =>
    simp only [jparseMembers]
    rw [jskip_wsLead W cs hW]

/-! ## Float rounding and rendering lemmas -/

theorem qpow2_eq_zpow (e : Int) : qpow2 e = (2 : ℚ) ^ e := by
  unfold qpow2
  by_cases h : 0 ≤ e
  · rw [if_pos h]
    push_cast
    rw [← zpow_natCast (2 : ℚ) e.toNat, Int.toNat_of_nonneg h]
  · rw [if_neg h]
    push_cast
    rw [← zpow_natCast (2 : ℚ) (-e).toNat, Int.toNat_of_nonneg (by omega : (0 : Int) ≤ -e),
      ← zpow_neg]
    norm_num

theorem qpow10_eq_zpow (e : Int) : qpow10 e = (10 : ℚ) ^ e := by
  unfold qpow10
  by_cases h : 0 ≤ e
  · rw [if_pos h]
    push_cast
    rw [← zpow_natCast (10 : ℚ) e.toNat, Int.toNat_of_nonneg h]
  · rw [if_neg h]
    push_cast
    rw [← zpow_natCast (10 : ℚ) (-e).toNat, Int.toNat_of_nonneg (by omega : (0 : Int) ≤ -e),
      ← zpow_neg]
    norm_num

theorem qpow2_pos (e : Int) : 0 < qpow2 e := by
  rw [qpow2_eq_zpow]
  exact zpow_pos (by norm_num) e

theorem rne_intCast (n : Int) : rne ((n : ℚ)) = n := by
  unfold rne
  simp only [Int.floor_intCast, sub_self]
  norm_num

theorem flogB_eq (b : Nat) (hb : 2 ≤ b) :
    ∀ (fuel N L : Nat), N < b ^ fuel → b ^ L ≤ N → N < b ^ (L + 1) →
      flogB b fuel N = L := by
  intro fuel
  induction fuel with
  | zero =>
    intro N L h1 h2 h3
    have hN : N = 0 := by simpa using h1
    have hpos : 0 < b ^ L := pow_pos (by omega) L
    omega
  | succ fuel ih =>
    intro N L h1 h2 h3
    unfold flogB
    by_cases hNb : N < b
    · rw [if_pos hNb]
      by_contra hL
      have hL1 : 1 ≤ L := by omega
      have : b ≤ b ^ L := by
        calc b = b ^ 1 := (pow_one b).symm
          _ ≤ b ^ L := Nat.pow_le_pow_right (by omega) hL1
      omega
    · rw [if_neg hNb]
      have hb0 : 0 < b := by omega
      have hL1 : 1 ≤ L := by
        by_contra hL
        have : L = 0 := by omega
        rw [this] at h3
        simp [pow_one] at h3
        omega
      obtain ⟨L2, rfl⟩ : ∃ L2, L = L2 + 1 := ⟨L - 1, by omega⟩
      rw [ih (N / b) L2
        (by rw [Nat.div_lt_iff_lt_mul hb0]; calc N < b ^ (fuel + 1) := h1
              _ = b ^ fuel * b := by ring)
        (by rw [Nat.le_div_iff_mul_le hb0]; calc b ^ L2 * b = b ^ (L2 + 1) := by ring
              _ ≤ N := h2)
        (by rw [Nat.div_lt_iff_lt_mul hb0]; calc N < b ^ (L2 + 1 + 1) := h3
              _ = b ^ (L2 + 1) * b := by ring)]

theorem flogB_le (b : Nat) (hb : 2 ≤ b) :
    ∀ (fuel N L : Nat), N < b ^ (L + 1) → flogB b fuel N ≤ L := by
  intro fuel
  induction fuel with
  | zero => intro N L _; simp [flogB]
  | succ fuel ih =>
    intro N L h1
    unfold flogB
    by_cases hNb : N < b
    · simp [hNb]
    · rw [if_neg hNb]
      have hb0 : 0 < b := by omega
      have hL1 : 1 ≤ L := by
        by_contra hL
        have : L = 0 := by omega
        rw [this] at h1
        simp [pow_one] at h1
        omega
      obtain ⟨L2, rfl⟩ : ∃ L2, L = L2 + 1 := ⟨L - 1, by omega⟩
      have := ih (N / b) L2
        (by rw [Nat.div_lt_iff_lt_mul hb0]; calc N < b ^ (L2 + 1 + 1) := h1
              _ = b ^ (L2 + 1) * b := by ring)
      omega

theorem mag_shift (m : Nat) (e : Int) (h : -1200 ≤ e) :
    (m : ℚ) * qpow2 e * ((2 ^ 1200 : Nat) : ℚ) = ((m * 2 ^ (e + 1200).toNat : Nat) : ℚ) := by
  rw [qpow2_eq_zpow]
  push_cast
  rw [← zpow_natCast (2 : ℚ) (e + 1200).toNat,
    show ((((e + 1200).toNat : Nat)) : Int) = e + 1200 from by omega,
    zpow_add₀ (by norm_num : (2 : ℚ) ≠ 0) e 1200]
  rw [show ((1200 : Int)) = ((1200 : Nat) : Int) from rfl, zpow_natCast]
  push_cast
  ring

theorem qlog2_rep (m : Nat) (e : Int) (k : Nat) (hm1 : 2 ^ k ≤ m) (hm2 : m < 2 ^ (k + 1))
    (he1 : -1074 ≤ e) (he2 : e ≤ 971) (hk : k ≤ 52) :
    qlog2 ((m : ℚ) * qpow2 e) = (k : Int) + e := by
  unfold qlog2
  rw [mag_shift m e (by omega), Int.floor_natCast, Int.toNat_natCast]
  have ht : (e + 1200).toNat ≤ 2171 := by omega
  have hpos : 0 < 2 ^ (e + 1200).toNat := pow_pos (by norm_num) _
  rw [flogB_eq 2 (by norm_num) 2400 _ (k + (e + 1200).toNat)
    (by calc m * 2 ^ (e + 1200).toNat < 2 ^ (k + 1) * 2 ^ (e + 1200).toNat :=
            (Nat.mul_lt_mul_right hpos).mpr hm2
          _ = 2 ^ (k + 1 + (e + 1200).toNat) := (pow_add 2 (k + 1) (e + 1200).toNat).symm
          _ ≤ 2 ^ 2400 := Nat.pow_le_pow_right (by norm_num) (by omega))
    (by calc 2 ^ (k + (e + 1200).toNat) = 2 ^ k * 2 ^ (e + 1200).toNat :=
            pow_add 2 k (e + 1200).toNat
          _ ≤ m * 2 ^ (e + 1200).toNat :=
            Nat.mul_le_mul_right _ hm1)
    (by calc m * 2 ^ (e + 1200).toNat < 2 ^ (k + 1) * 2 ^ (e + 1200).toNat :=
            (Nat.mul_lt_mul_right hpos).mpr hm2
          _ = 2 ^ (k + (e + 1200).toNat + 1) := by
            rw [pow_add 2 (k + (e + 1200).toNat) 1, pow_add 2 k (e + 1200).toNat]
            ring)]
  omega

theorem okB_finite_iff (s : Bool) (m : Nat) (e : Int) :
    F64.okB (.finite s m e) = true
      ↔ m < 2 ^ 53 ∧ -1074 ≤ e ∧ e ≤ 971 ∧ (2 ^ 52 ≤ m ∨ e = -1074) := by
  simp [F64.okB, Bool.and_eq_true, Bool.or_eq_true, decide_eq_true_eq, and_assoc]

theorem roundMag_rep (m : Nat) (e : Int)
    (hok : F64.okB (.finite false m e) = true) (hm : m ≠ 0) :
    roundMag ((m : ℚ) * qpow2 e) = some (m, e) := by
  obtain ⟨hm53, he1, he2, hcan⟩ := (okB_finite_iff false m e).mp hok
  have hmq : (0 : ℚ) < (m : ℚ) := by exact_mod_cast Nat.pos_of_ne_zero hm
  have hapos : 0 < (m : ℚ) * qpow2 e := mul_pos hmq (qpow2_pos e)
  -- the mantissa recovered by rounding at exponent `e` is `m` itself
  have hcancel : (m : ℚ) * qpow2 e * qpow2 (-e) = (m : ℚ) := by
    rw [qpow2_eq_zpow, qpow2_eq_zpow, mul_assoc, ← zpow_add₀ (by norm_num : (2 : ℚ) ≠ 0)]
    simp
  have hbound : (m : ℚ) * qpow2 e < ((2 ^ 1024 : Nat) : ℚ) := by
    have hc53 : ((2 ^ 53 : Nat) : ℚ) = (2 : ℚ) ^ ((53 : Nat) : Int) := by
      rw [zpow_natCast]
      exact_mod_cast rfl
    have hc1024 : ((2 ^ 1024 : Nat) : ℚ) = (2 : ℚ) ^ ((1024 : Nat) : Int) := by
      rw [zpow_natCast]
      exact_mod_cast rfl
    have h1 : (m : ℚ) < ((2 ^ 53 : Nat) : ℚ) := by exact_mod_cast hm53
    have h2 : qpow2 e ≤ (2 : ℚ) ^ (971 : Int) := by
      rw [qpow2_eq_zpow]
      exact zpow_le_zpow_right₀ (by norm_num) he2
    calc (m : ℚ) * qpow2 e
        < ((2 ^ 53 : Nat) : ℚ) * qpow2 e := by
          exact mul_lt_mul_of_pos_right h1 (qpow2_pos e)
      _ ≤ ((2 ^ 53 : Nat) : ℚ) * (2 : ℚ) ^ (971 : Int) := by
          refine mul_le_mul_of_nonneg_left h2 (by positivity)
      _ = ((2 ^ 1024 : Nat) : ℚ) := by
          rw [hc53, hc1024, ← zpow_add₀ (by norm_num : (2 : ℚ) ≠ 0)]
          norm_num
  have hround : roundAt ((m : ℚ) * qpow2 e) e = some (m, e) := by
    unfold roundAt
    rw [hcancel, show ((m : ℚ)) = (((m : Int) : ℚ)) from by push_cast; rfl, rne_intCast]
    rw [if_pos (by exact_mod_cast hm53)]
    simp
  unfold roundMag
  rw [if_neg (by exact not_le.mpr hapos), if_neg (by exact not_le.mpr hbound)]
  have hmain : ∀ k : Nat, 2 ^ k ≤ m → m < 2 ^ (k + 1) → k ≤ 52 →
      max (qlog2 ((m : ℚ) * qpow2 e) - 52) (-1074) = max ((k : Int) + e - 52) (-1074) := by
    intro k h1 h2 h3
    rw [qlog2_rep m e k h1 h2 he1 he2 h3]
  rcases hcan with hnorm | hsub
  · -- normal: the 53-bit mantissa pins the exponent to `e`
    have hemax : max (qlog2 ((m : ℚ) * qpow2 e) - 52) (-1074) = e := by
      rw [hmain 52 hnorm (by omega) (le_refl 52)]
      omega
    rw [hemax, hround]
  · -- subnormal: the exponent clamps to -1074 = e
    have hk1 : 2 ^ Nat.log 2 m ≤ m := Nat.pow_log_le_self 2 hm
    have hk2 : m < 2 ^ (Nat.log 2 m + 1) := Nat.lt_pow_succ_log_self (by norm_num) m
    have hk3 : Nat.log 2 m ≤ 52 := by
      by_contra hgt
      have : 2 ^ 53 ≤ 2 ^ Nat.log 2 m := Nat.pow_le_pow_right (by norm_num) (by omega)
      omega
    have hemax : max (qlog2 ((m : ℚ) * qpow2 e) - 52) (-1074) = e := by
      rw [hmain (Nat.log 2 m) hk1 hk2 hk3]
      have : (Nat.log 2 m : Int) ≤ 52 := by exact_mod_cast hk3
      omega
    rw [hemax, hround]

theorem qpow10_zero : qpow10 0 = 1 := by norm_num [qpow10]

theorem exactCand_val (m : Nat) (e : Int) :
    candValQ (exactCand m e) = (m : ℚ) * qpow2 e := by
  unfold exactCand candValQ
  by_cases h : 0 ≤ e
  · rw [if_pos h]
    simp only [digitsVal_natChars, sub_self, qpow10_zero, mul_one]
    rw [qpow2_eq_zpow]
    push_cast
    rw [← zpow_natCast (2 : ℚ) e.toNat, Int.toNat_of_nonneg h]
  · rw [if_neg h]
    simp only [digitsVal_natChars, add_sub_cancel_left]
    obtain ⟨t, rfl⟩ : ∃ t : Nat, e = -((t : Nat) : Int) := ⟨(-e).toNat, by omega⟩
    simp only [neg_neg, Int.toNat_natCast]
    rw [qpow10_eq_zpow, qpow2_eq_zpow, zpow_neg, zpow_neg, zpow_natCast, zpow_natCast]
    push_cast
    have h10 : ((10 : ℚ)) ^ t ≠ 0 := by positivity
    have h2 : ((2 : ℚ)) ^ t ≠ 0 := by positivity
    field_simp
    rw [show ((10 : ℚ)) = 2 * 5 from by norm_num, mul_pow]
    ring

theorem exactCand_digitsOk (m : Nat) (e : Int) (hm : m ≠ 0) :
    digitsOkB (exactCand m e).1 = true := by
  unfold exactCand
  by_cases h : 0 ≤ e
  · rw [if_pos h]
    exact digitsOkB_natChars _ (by positivity)
  · rw [if_neg h]
    exact digitsOkB_natChars _ (by positivity)

theorem floatDigits_spec (m : Nat) (e : Int)
    (hok : F64.okB (.finite false m e) = true) (hm : m ≠ 0) :
    digitsOkB (floatDigits m e).1 = true
      ∧ roundMag (candValQ (floatDigits m e)) = some (m, e) := by
  unfold floatDigits
  cases hfind : (candList m e).find? (fun c =>
      digitsOkB c.1 && decide (roundMag (candValQ c) = some (m, e))) with
  | some c =>
    have hp := List.find?_some hfind
    simp only [Bool.and_eq_true, decide_eq_true_eq] at hp
    simpa using hp
  | none =>
    simp only [Option.getD_none]
    exact ⟨exactCand_digitsOk m e hm, by rw [exactCand_val]; exact roundMag_rep m e hok hm⟩

theorem candList_digits (m : Nat) (e : Int) :
    ∀ cand ∈ candList m e, ∃ c t, cand.1 = c :: t ∧ ∀ x ∈ cand.1, x.isDigit = true := by
  intro cand hc
  unfold candList at hc
  rcases List.mem_append.mp hc with h | h
  · rcases List.mem_map.mp h with ⟨i, -, rfl⟩
    unfold candAt
    by_cases hs : rne ((m : ℚ) * qpow2 e
        * qpow10 (((i + 1 : Nat) : Int) - 1 - qlog10 ((m : ℚ) * qpow2 e))) = 10 ^ (i + 1)
    · rw [if_pos hs]
      exact ⟨'1', [], rfl, by intro x hx; simp at hx; subst hx; decide⟩
    · rw [if_neg hs]
      obtain ⟨c, t, hct, -⟩ := natChars_cons _
      exact ⟨c, t, hct, natChars_digits _⟩
  · rw [List.mem_singleton] at h
    subst h
    unfold exactCand
    by_cases h0 : 0 ≤ e
    · rw [if_pos h0]
      obtain ⟨c, t, hct, -⟩ := natChars_cons _
      exact ⟨c, t, hct, natChars_digits _⟩
    · rw [if_neg h0]
      obtain ⟨c, t, hct, -⟩ := natChars_cons _
      exact ⟨c, t, hct, natChars_digits _⟩

theorem floatDigits_digits (m : Nat) (e : Int) :
    ∃ c t, (floatDigits m e).1 = c :: t ∧ ∀ x ∈ (floatDigits m e).1, x.isDigit = true := by
  unfold floatDigits
  cases hfind : (candList m e).find? (fun c =>
      digitsOkB c.1 && decide (roundMag (candValQ c) = some (m, e))) with
  | some c =>
    have hmem := List.mem_of_find?_eq_some hfind
    simpa using candList_digits m e c hmem
  | none =>
    simp only [Option.getD_none]
    exact candList_digits m e _ (by unfold candList; simp)

theorem fmt_head {D : List Char} (decpt : Int) {c : Char} {t : List Char}
    (hD : D = c :: t) (hdig : ∀ x ∈ D, x.isDigit = true) :
    ∃ c2 t2, fmtDigits D decpt = c2 :: t2 ∧ c2.isDigit = true := by
  subst hD
  have hc := hdig c (by simp)
  unfold fmtDigits fmtFix fmtSci
  by_cases h1 : -4 < decpt ∧ decpt ≤ 16
  · rw [if_pos h1]
    by_cases h2 : decpt ≤ 0
    · rw [if_pos h2]
      exact ⟨'0', _, rfl, by decide⟩
    · rw [if_neg h2]
      by_cases h3 : decpt < (((c :: t).length : Nat) : Int)
      · rw [if_pos h3]
        rw [show decpt.toNat = (decpt.toNat - 1) + 1 from by omega, List.take_succ_cons]
        exact ⟨c, _, rfl, hc⟩
      · rw [if_neg h3]
        refine ⟨c, t ++ (List.replicate (decpt.toNat - (c :: t).length) '0' ++ ['.', '0']),
          ?_, hc⟩
        simp
  · rw [if_neg h1]
    exact ⟨c, _, rfl, hc⟩

theorem finiteMagChars_head (m : Nat) (e : Int) :
    ∃ c t, finiteMagChars m e = c :: t ∧ c.isDigit = true := by
  obtain ⟨c, t, hct, hd⟩ := floatDigits_digits m e
  exact fmt_head (floatDigits m e).2 hct hd

theorem floatChars_head (x : F64) :
    ∃ c t, floatChars x = c :: t ∧ isJWs c = false ∧ c ≠ ']' ∧ c ≠ '}' := by
  cases x with
  | nan => exact ⟨'N', _, rfl, by decide, by decide, by decide⟩
  | inf s =>
    cases s
    · exact ⟨'I', _, rfl, by decide, by decide, by decide⟩
    · exact ⟨'-', _, rfl, by decide, by decide, by decide⟩
  | finite s m e =>
    cases s
    · show ∃ c t, [] ++ (if m = 0 then ['0', '.', '0'] else finiteMagChars m e) = c :: t ∧ _
      rw [List.nil_append]
      by_cases h0 : m = 0
      · rw [if_pos h0]
        exact ⟨'0', _, rfl, by decide, by decide, by decide⟩
      · rw [if_neg h0]
        obtain ⟨c, t, hct, hcd⟩ := finiteMagChars_head m e
        obtain ⟨hws, -, -, -, -, -, -, -, hbr, hbc, -⟩ := isDigit_not_special hcd
        exact ⟨c, t, hct, hws, hbr, hbc⟩
    · exact ⟨'-', _, rfl, by decide, by decide, by decide⟩

theorem jdump_head (v : JVal) (lvl : Nat) :
    ∃ c t, jdump v lvl = c :: t ∧ isJWs c = false ∧ c ≠ ']' ∧ c ≠ '}' := by
  cases v with
  | jint n =>
    by_cases hn : n < 0
    · refine ⟨'-', natChars n.natAbs, ?_, by decide, by decide, by decide⟩
      simp [jdump, intChars, hn]
    · obtain ⟨c, t, hct, hcd⟩ := natChars_cons n.natAbs
      obtain ⟨hws, -, -, -, -, -, -, -, hbr, hbc, -⟩ := isDigit_not_special hcd
      refine ⟨c, t, ?_, hws, hbr, hbc⟩
      simp [jdump, intChars, hn, hct]
  | jnull => refine ⟨_, _, rfl, ?_, ?_, ?_⟩ <;> decide
  | jbool b => cases b <;> (refine ⟨_, _, rfl, ?_, ?_, ?_⟩ <;> decide)
  | jstr s => refine ⟨_, _, rfl, ?_, ?_, ?_⟩ <;> decide
  | jarr xs => cases xs <;> (refine ⟨_, _, rfl, ?_, ?_, ?_⟩ <;> decide)
  | jobj fs => cases fs <;> (refine ⟨_, _, rfl, ?_, ?_, ?_⟩ <;> decide)
  | jfloat x => exact floatChars_head x

theorem jdump_length_pos (v : JVal) (lvl : Nat) : 0 < (jdump v lvl).length := by
  obtain ⟨c, t, h, -, -, -⟩ := jdump_head v lvl
  simp [h]

theorem jparse_other (f : Nat) (c : Char) (t : List Char) (hws : isJWs c = false)
    (hn : c ≠ 'n') (ht : c ≠ 't') (hf : c ≠ 'f') (hq : c ≠ '"') (hk : c ≠ '[')
    (hb : c ≠ '{') :
    jparse (f + 1) (c :: t) = jparseNumConst (c :: t) := by
  simp only [jparse]
  rw [jskip_cons_not hws]
  simp [hn, ht, hf, hq, hk, hb]

theorem jparseNumConst_of_number {cs : List Char} {p : JVal × List Char}
    (h : jparseNumber cs = some p) : jparseNumConst cs = some p := by
  unfold jparseNumConst
  rw [h]

theorem jparseNumber_not_digit {c : Char} (t : List Char) (hd : c.isDigit = false)
    (hm : c ≠ '-') : jparseNumber (c :: t) = none := by
  simp only [jparseNumber, hm]
  simp [lexInt, hd]

theorem jparseNumber_minus_not_digit {c2 : Char} (t : List Char) (hd : c2.isDigit = false) :
    jparseNumber ('-' :: c2 :: t) = none := by
  simp only [jparseNumber]
  simp [lexInt, hd]

theorem jparseNumber_glue (s : Bool) {body rest ip r2 : List Char}
    {fo : Option (List Char)} {r3 : List Char} {eo : Option Int}
    {c : Char} {t : List Char} (hbody : body = c :: t) (hcd : c.isDigit = true)
    (hip : lexInt (body ++ rest) = some (ip, r2))
    (hf : lexFrac r2 = (fo, r3))
    (he : lexExp r3 = (eo, rest))
    (hne : ¬(fo = none ∧ eo = none)) :
    jparseNumber ((if s then ['-'] else []) ++ (body ++ rest))
      = some (.jfloat (mkFloat s (roundMag (tokenMag ip (fo.getD []) (eo.getD 0)))), rest) := by
  obtain ⟨-, -, -, -, -, -, -, hminus, -, -, -⟩ := isDigit_not_special hcd
  cases s
  · rw [show ((if false then ['-'] else []) : List Char) ++ (body ++ rest) = body ++ rest
      from by simp]
    rw [hbody, List.cons_append]
    simp only [jparseNumber, hminus, if_neg, if_false, reduceIte]
    rw [← List.cons_append, ← hbody, hip]
    simp only [hf, he, if_neg hne]
    rfl
  · rw [show ((if true then ['-'] else []) : List Char) ++ (body ++ rest)
        = '-' :: (body ++ rest) from by simp]
    rw [hbody, List.cons_append]
    simp only [jparseNumber, reduceIte]
    rw [← List.cons_append, ← hbody, hip]
    simp only [hf, he, if_neg hne]
    rfl

theorem lexFrac_dot_digits {F rest : List Char} (hF : ∀ x ∈ F, x.isDigit = true)
    (hne : F ≠ []) (hr : noDigitLead rest = true) :
    lexFrac ('.' :: (F ++ rest)) = (some F, rest) := by
  cases F with
  | nil => exact absurd rfl hne
  | cons d ds =>
    have hd := hF d (by simp)
    rw [List.cons_append]
    simp only [lexFrac, reduceIte, hd, if_true]
    rw [← List.cons_append, digitSpan_run hF hr]

theorem expChars_pad (d : Int) :
    ∃ p ps, (let n := natChars d.natAbs; if n.length = 1 then '0' :: n else n) = p :: ps
      ∧ (∀ x ∈ p :: ps, x.isDigit = true)
      ∧ digitsVal (p :: ps) = d.natAbs := by
  obtain ⟨c, t, hct, hcd⟩ := natChars_cons d.natAbs
  by_cases h1 : (natChars d.natAbs).length = 1
  · refine ⟨'0', natChars d.natAbs, by simp [h1], ?_, ?_⟩
    · intro x hx
      rcases List.mem_cons.mp hx with h | h
      · subst h; decide
      · exact natChars_digits _ x h
    · rw [digitsVal_cons_zero, digitsVal_natChars]
  · refine ⟨c, t, by simp only []; rw [if_neg h1]; exact hct, ?_, ?_⟩
    · intro x hx
      rw [← hct] at hx
      exact natChars_digits _ x hx
    · rw [← hct, digitsVal_natChars]

theorem lexExp_expChars (d : Int) {rest : List Char} (hr : restSafe rest = true) :
    lexExp ('e' :: (expChars d ++ rest)) = (some d, rest) := by
  have hnd := restSafe_noDigitLead hr
  obtain ⟨p, ps, hpad, hdig, hval⟩ := expChars_pad d
  have hp := hdig p (by simp)
  have hspan : digitSpan ((p :: ps) ++ rest) = (p :: ps, rest) := digitSpan_run hdig hnd
  by_cases hd : d < 0
  · have harg : expChars d ++ rest = '-' :: ((p :: ps) ++ rest) := by
      unfold expChars
      rw [if_pos hd, hpad]
      simp
    rw [harg]
    simp only [lexExp, reduceIte]
    rw [List.cons_append]
    simp only [show ((('-' : Char)).isDigit) = false from by decide,
      show ¬(('-' : Char) = '+') from by decide, reduceIte, if_false, hp, if_true]
    rw [← List.cons_append, hspan, hval]
    simp [abs_of_neg hd]
  · have harg : expChars d ++ rest = '+' :: ((p :: ps) ++ rest) := by
      unfold expChars
      rw [if_neg hd, hpad]
      simp
    rw [harg]
    simp only [lexExp, reduceIte]
    rw [List.cons_append]
    simp only [show ((('+' : Char)).isDigit) = false from by decide, reduceIte, if_false,
      hp, if_true]
    rw [← List.cons_append, hspan, hval]
    simp [abs_of_nonneg (not_lt.mp hd)]

theorem lexFrac_e {X : List Char} : lexFrac ('e' :: X) = (none, 'e' :: X) := by
  simp [lexFrac]

theorem lexInt_digits_stop {D : List Char} {c : Char} {t rest : List Char}
    (hD : D = c :: t) (hdig : ∀ x ∈ D, x.isDigit = true) (hc0 : c ≠ '0')
    (hr : noDigitLead rest = true) :
    lexInt (D ++ rest) = some (D, rest) := by
  subst hD
  have hc := hdig c (by simp)
  rw [List.cons_append, lexInt, if_pos hc, if_neg hc0, ← List.cons_append,
    digitSpan_run hdig hr]

theorem tokenMag_eq_candValQ (ip F : List Char) (x : Int) (D : List Char) (decpt : Int)
    (hval : digitsVal ip * 10 ^ F.length + digitsVal F = digitsVal D)
    (hexp : x - F.length = decpt - D.length) :
    tokenMag ip F x = candValQ (D, decpt) := by
  unfold tokenMag candValQ
  rw [hval, hexp]

theorem tokenMag_trailing (D : List Char) (zz : Nat) (decpt : Int)
    (hd : decpt - D.length = (zz : Int)) :
    tokenMag (D ++ List.replicate zz '0') ['0'] 0 = candValQ (D, decpt) := by
  unfold tokenMag candValQ
  simp only [List.length_singleton, show digitsVal ['0'] = 0 from rfl, Nat.add_zero, pow_one]
  rw [digitsVal_append, show digitsVal (List.replicate zz '0') = 0 from by
      simpa using digitsVal_zeros zz [], Nat.add_zero, List.length_replicate,
    qpow10_eq_zpow, qpow10_eq_zpow, hd]
  push_cast
  rw [zpow_neg_one, mul_assoc, mul_inv_cancel₀ (by norm_num : (10 : ℚ) ≠ 0), mul_one,
    zpow_natCast]

theorem jparseNumber_fmt (s : Bool) (D : List Char) (decpt : Int) {rest : List Char}
    (hD : digitsOkB D = true) (hr : restSafe rest = true) :
    jparseNumber ((if s then ['-'] else []) ++ (fmtDigits D decpt ++ rest))
      = some (.jfloat (mkFloat s (roundMag (candValQ (D, decpt)))), rest) := by
  have hnd := restSafe_noDigitLead hr
  have hDdef : (!D.isEmpty && D.all Char.isDigit && (D.head? != some '0')) = true := hD
  rw [Bool.and_eq_true, Bool.and_eq_true] at hDdef
  have hall : ∀ x ∈ D, x.isDigit = true := by
    have := hDdef.1.2
    simpa [List.all_eq_true] using this
  obtain ⟨c, t, hct⟩ : ∃ c t, D = c :: t := by
    cases D with
    | nil => simp at hDdef
    | cons c t => exact ⟨c, t, rfl⟩
  have hc0 : c ≠ '0' := by
    have := hDdef.2
    rw [hct] at this
    simpa [List.head?_cons] using this
  have hcd : c.isDigit = true := hall c (by rw [hct]; simp)
  unfold fmtDigits
  by_cases h1 : -4 < decpt ∧ decpt ≤ 16
  · rw [if_pos h1]
    unfold fmtFix
    by_cases h2 : decpt ≤ 0
    · -- 0.000D
      rw [if_pos h2]
      have hzdig : ∀ x ∈ List.replicate (-decpt).toNat '0' ++ D, x.isDigit = true := by
        intro x hx
        rcases List.mem_append.mp hx with h | h
        · rw [List.eq_of_mem_replicate h]; decide
        · exact hall x h
      have hip : lexInt (('0' :: '.' :: (List.replicate (-decpt).toNat '0' ++ D)) ++ rest)
          = some (['0'], '.' :: ((List.replicate (-decpt).toNat '0' ++ D) ++ rest)) := by
        rw [List.cons_append, List.cons_append]
        simp [lexInt]
      have hf : lexFrac ('.' :: ((List.replicate (-decpt).toNat '0' ++ D) ++ rest))
          = (some (List.replicate (-decpt).toNat '0' ++ D), rest) :=
        lexFrac_dot_digits hzdig (by rw [hct]; simp) hnd
      rw [jparseNumber_glue s rfl (by decide) hip hf (lexExp_stop hr) (by simp)]
      rw [show (some (List.replicate (-decpt).toNat '0' ++ D)).getD ([] : List Char)
          = List.replicate (-decpt).toNat '0' ++ D from rfl]
      rw [show ((none : Option Int)).getD 0 = 0 from rfl]
      rw [tokenMag_eq_candValQ ['0'] (List.replicate (-decpt).toNat '0' ++ D) 0 D decpt
        (by rw [digitsVal_zeros, show digitsVal ['0'] = 0 from rfl]; ring)
        (by simp only [List.length_append, List.length_replicate]; push_cast; omega)]
    · rw [if_neg h2]
      by_cases h3 : decpt < (D.length : Int)
      · -- Dint.Dfrac
        rw [if_pos h3]
        have hk1 : 1 ≤ decpt.toNat := by omega
        have hklen : decpt.toNat < D.length := by omega
        have htake : D.take decpt.toNat = c :: t.take (decpt.toNat - 1) := by
          rw [hct]
          nth_rewrite 1 [show decpt.toNat = (decpt.toNat - 1) + 1 from by omega]
          rw [List.take_succ_cons]
        have htdig : ∀ x ∈ D.take decpt.toNat, x.isDigit = true :=
          fun x hx => hall x (List.mem_of_mem_take hx)
        have hddig : ∀ x ∈ D.drop decpt.toNat, x.isDigit = true :=
          fun x hx => hall x (List.mem_of_mem_drop hx)
        have hdropne : D.drop decpt.toNat ≠ [] := by
          intro hnil
          have := List.drop_eq_nil_iff.mp hnil
          omega
        have hip : lexInt ((D.take decpt.toNat ++ '.' :: D.drop decpt.toNat) ++ rest)
            = some (D.take decpt.toNat, ('.' :: D.drop decpt.toNat) ++ rest) := by
          rw [List.append_assoc]
          exact lexInt_digits_stop htake htdig hc0
            (by rw [List.cons_append]; simp [noDigitLead])
        have hf : lexFrac (('.' :: D.drop decpt.toNat) ++ rest)
            = (some (D.drop decpt.toNat), rest) := by
          rw [List.cons_append]
          exact lexFrac_dot_digits hddig hdropne hnd
        have hbody : D.take decpt.toNat ++ '.' :: D.drop decpt.toNat
            = c :: (t.take (decpt.toNat - 1) ++ '.' :: D.drop decpt.toNat) := by
          rw [htake, List.cons_append]
        rw [jparseNumber_glue s hbody hcd hip hf (lexExp_stop hr) (by simp)]
        rw [show (some (D.drop decpt.toNat)).getD ([] : List Char) = D.drop decpt.toNat from rfl]
        rw [show ((none : Option Int)).getD 0 = 0 from rfl]
        rw [tokenMag_eq_candValQ (D.take decpt.toNat) (D.drop decpt.toNat) 0 D decpt
          (by conv_rhs => rw [← List.take_append_drop decpt.toNat D]
              rw [digitsVal_append])
          (by simp only [List.length_drop]; push_cast; omega)]
      · -- D000.0
        rw [if_neg h3]
        have hbody : (D ++ List.replicate (decpt.toNat - D.length) '0') ++ ['.', '0']
            = c :: ((t ++ List.replicate (decpt.toNat - D.length) '0') ++ ['.', '0']) := by
          rw [hct]
          simp
        have hzdig : ∀ x ∈ D ++ List.replicate (decpt.toNat - D.length) '0',
            x.isDigit = true := by
          intro x hx
          rcases List.mem_append.mp hx with h | h
          · exact hall x h
          · rw [List.eq_of_mem_replicate h]; decide
        have hip : lexInt (((D ++ List.replicate (decpt.toNat - D.length) '0') ++ ['.', '0']) ++ rest)
            = some (D ++ List.replicate (decpt.toNat - D.length) '0', ['.', '0'] ++ rest) := by
          rw [List.append_assoc]
          have hshape : D ++ List.replicate (decpt.toNat - D.length) '0'
              = c :: (t ++ List.replicate (decpt.toNat - D.length) '0') := by
            rw [hct, List.cons_append]
          exact lexInt_digits_stop hshape hzdig hc0 (by simp [noDigitLead])
        have hf : lexFrac ((['.', '0'] : List Char) ++ rest) = (some ['0'], rest) := by
          rw [show ((['.', '0'] : List Char)) ++ rest = '.' :: (['0'] ++ rest) from by simp]
          exact lexFrac_dot_digits (by intro x hx; simp at hx; subst hx; decide)
            (by simp) hnd
        rw [jparseNumber_glue s hbody hcd hip hf (lexExp_stop hr) (by simp)]
        rw [show (some (['0'] : List Char)).getD ([] : List Char) = ['0'] from rfl]
        rw [show ((none : Option Int)).getD 0 = 0 from rfl]
        rw [tokenMag_trailing D (decpt.toNat - D.length) decpt (by push_cast; omega)]
  · rw [if_neg h1]
    have hfs : fmtSci D decpt
        = c :: ((if t.isEmpty then ([] : List Char) else '.' :: t)
            ++ 'e' :: expChars (decpt - 1)) := by
      rw [hct]
      simp [fmtSci]
    rw [hfs]
    by_cases ht : t.isEmpty
    · -- de±XX
      have htnil : t = [] := by simpa [List.isEmpty_iff] using ht
      subst htnil
      rw [show ((if ([] : List Char).isEmpty then ([] : List Char) else '.' :: [])
            ++ 'e' :: expChars (decpt - 1)) = 'e' :: expChars (decpt - 1) from by simp]
      have hip : lexInt ((c :: 'e' :: expChars (decpt - 1)) ++ rest)
          = some ([c], ('e' :: expChars (decpt - 1)) ++ rest) := by
        rw [show ((c :: 'e' :: expChars (decpt - 1)) ++ rest)
            = [c] ++ (('e' :: expChars (decpt - 1)) ++ rest) from by simp]
        exact lexInt_digits_stop rfl (by intro x hx; simp at hx; subst hx; exact hcd) hc0
          (by rw [List.cons_append]; simp [noDigitLead])
      have hf : lexFrac (('e' :: expChars (decpt - 1)) ++ rest)
          = (none, ('e' :: expChars (decpt - 1)) ++ rest) := by
        rw [List.cons_append]
        exact lexFrac_e
      have he : lexExp (('e' :: expChars (decpt - 1)) ++ rest) = (some (decpt - 1), rest) := by
        rw [List.cons_append]
        exact lexExp_expChars (decpt - 1) hr
      rw [jparseNumber_glue s rfl hcd hip hf he (by simp)]
      rw [show ((none : Option (List Char))).getD [] = [] from rfl]
      rw [show (some (decpt - 1)).getD 0 = decpt - 1 from rfl]
      rw [tokenMag_eq_candValQ [c] [] (decpt - 1) [c] decpt
        (by simp [digitsVal])
        (by simp), hct]
    · -- d.ddde±XX
      have htne : t ≠ [] := by simpa [List.isEmpty_iff] using ht
      rw [show ((if t.isEmpty then ([] : List Char) else '.' :: t)
            ++ 'e' :: expChars (decpt - 1)) = ('.' :: t) ++ 'e' :: expChars (decpt - 1) from by
          rw [if_neg (by simpa [List.isEmpty_iff] using htne)]]
      have htdig : ∀ x ∈ t, x.isDigit = true := fun x hx => hall x (by rw [hct]; simp [hx])
      have hip : lexInt ((c :: (('.' :: t) ++ 'e' :: expChars (decpt - 1))) ++ rest)
          = some ([c], (('.' :: t) ++ 'e' :: expChars (decpt - 1)) ++ rest) := by
        rw [show ((c :: (('.' :: t) ++ 'e' :: expChars (decpt - 1))) ++ rest)
            = [c] ++ ((('.' :: t) ++ 'e' :: expChars (decpt - 1)) ++ rest) from by simp]
        exact lexInt_digits_stop rfl (by intro x hx; simp at hx; subst hx; exact hcd) hc0
          (by rw [List.cons_append, List.cons_append]; simp [noDigitLead])
      have hf : lexFrac ((('.' :: t) ++ 'e' :: expChars (decpt - 1)) ++ rest)
          = (some t, ('e' :: expChars (decpt - 1)) ++ rest) := by
        rw [List.cons_append, List.cons_append,
          show (t ++ 'e' :: expChars (decpt - 1)) ++ rest
            = t ++ (('e' :: expChars (decpt - 1)) ++ rest) from by simp]
        exact lexFrac_dot_digits htdig htne
          (by rw [List.cons_append]; simp [noDigitLead])
      have he : lexExp (('e' :: expChars (decpt - 1)) ++ rest) = (some (decpt - 1), rest) := by
        rw [List.cons_append]
        exact lexExp_expChars (decpt - 1) hr
      rw [jparseNumber_glue s rfl hcd hip hf he (by simp)]
      rw [show (some t).getD ([] : List Char) = t from rfl]
      rw [show (some (decpt - 1)).getD 0 = decpt - 1 from rfl]
      rw [tokenMag_eq_candValQ [c] t (decpt - 1) D decpt
        (by rw [hct, show ((c :: t) : List Char) = [c] ++ t from rfl, digitsVal_append])
        (by rw [hct]; simp; omega)]

theorem jparse_arr_step (f : Nat) (x : JVal) (xs : List JVal) (lvl : Nat) (tail : List Char) :
    jparse (f + 1) ('[' :: (jws (lvl + 1) ++ (jdump x (lvl + 1) ++ (jdumpTail xs (lvl + 1) ++ tail))))
      = (jparseElems f (jdump x (lvl + 1) ++ (jdumpTail xs (lvl + 1) ++ tail))).map
          (fun p => (JVal.jarr p.1, p.2)) := by
  obtain ⟨c, t, hx, hws, hbr, hbc⟩ := jdump_head x (lvl + 1)
  simp only [jparse]
  rw [jskip_cons_not (by decide : isJWs '[' = false)]
  simp only [show ¬(('[' : Char) = 'n') from by decide, show ¬(('[' : Char) = 't') from by decide,
    show ¬(('[' : Char) = 'f') from by decide, show ¬(('[' : Char) = '"') from by decide,
    if_neg, if_pos, if_true, if_false]
  rw [jskip_wsLead (jws (lvl + 1)) _ (jws_all_ws _), hx, List.cons_append,
    jskip_cons_not hws]
  simp [hbr, hx]

theorem jparse_obj_step (f lvl : Nat) (k : String) (tail2 : List Char) :
    jparse (f + 1) ('{' :: (jws (lvl + 1) ++ (dumpStr k ++ tail2)))
      = (jparseMembers f (dumpStr k ++ tail2)).map (fun p => (JVal.jobj p.1, p.2)) := by
  have hds : dumpStr k ++ tail2 = '"' :: (((k.data.map escSeq).flatten ++ ['"']) ++ tail2) := by
    simp [dumpStr]
  simp only [jparse]
  rw [jskip_cons_not (by decide : isJWs '{' = false)]
  simp only [show ¬(('{' : Char) = 'n') from by decide, show ¬(('{' : Char) = 't') from by decide,
    show ¬(('{' : Char) = 'f') from by decide, show ¬(('{' : Char) = '"') from by decide,
    show ¬(('{' : Char) = '[') from by decide, if_neg, if_pos, if_true, if_false]
  rw [jskip_wsLead (jws (lvl + 1)) _ (jws_all_ws _), hds,
    jskip_cons_not (by decide : isJWs '"' = false)]
  simp [show ¬(('"' : Char) = '}') from by decide]

theorem jparseNumber_finite (s : Bool) (m : Nat) (e : Int)
    (hok : F64.okB (.finite s m e) = true) {rest : List Char} (hr : restSafe rest = true) :
    jparseNumber (((if s then ['-'] else []) : List Char)
        ++ ((if m = 0 then ['0', '.', '0'] else finiteMagChars m e) ++ rest))
      = some (.jfloat (.finite s m e), rest) := by
  have hnd := restSafe_noDigitLead hr
  by_cases h0 : m = 0
  · subst h0
    rw [if_pos rfl]
    have he0 : e = -1074 := by
      obtain ⟨-, -, -, hcan⟩ := (okB_finite_iff s 0 e).mp hok
      rcases hcan with h | h
      · omega
      · exact h
    have hip : lexInt ((['0', '.', '0'] : List Char) ++ rest)
        = some (['0'], ['.', '0'] ++ rest) := by
      simp [lexInt]
    have hf : lexFrac ((['.', '0'] : List Char) ++ rest) = (some ['0'], rest) := by
      rw [show ((['.', '0'] : List Char)) ++ rest = '.' :: (['0'] ++ rest) from by simp]
      exact lexFrac_dot_digits (by intro x hx; simp at hx; subst hx; decide) (by simp) hnd
    rw [jparseNumber_glue s rfl (by decide) hip hf (lexExp_stop hr) (by simp)]
    rw [show tokenMag ['0'] ((some (['0'] : List Char)).getD []) (((none : Option Int)).getD 0)
        = 0 from by
      unfold tokenMag
      norm_num
      exact Or.inl (by rw [show digitsVal ['0'] = 0 from rfl]; norm_num)]
    rw [show roundMag 0 = some (0, -1074) from by norm_num [roundMag]]
    rw [he0]
    rfl
  · rw [if_neg h0]
    have hok2 : F64.okB (.finite false m e) = true := by
      rw [okB_finite_iff] at hok ⊢
      exact hok
    obtain ⟨hdOk, hround⟩ := floatDigits_spec m e hok2 h0
    unfold finiteMagChars
    rw [jparseNumber_fmt s (floatDigits m e).1 (floatDigits m e).2 hdOk hr]
    rw [show candValQ ((floatDigits m e).1, (floatDigits m e).2) = candValQ (floatDigits m e)
      from rfl]
    rw [hround]
    rfl

theorem jparse_float (f : Nat) (x : F64) {rest : List Char}
    (hok : x.okB = true) (hr : restSafe rest = true) :
    jparse (f + 1) (floatChars x ++ rest) = some (.jfloat x, rest) := by
  cases x with
  | nan =>
    rw [show floatChars .nan ++ rest = 'N' :: ('a' :: 'N' :: rest) from rfl,
      jparse_other f 'N' _ (by decide) (by decide) (by decide) (by decide) (by decide)
        (by decide) (by decide)]
    unfold jparseNumConst
    rw [jparseNumber_not_digit _ (by decide) (by decide)]
    rfl
  | inf s =>
    cases s
    · rw [show floatChars (.inf false) ++ rest
          = 'I' :: ('n' :: 'f' :: 'i' :: 'n' :: 'i' :: 't' :: 'y' :: rest) from rfl,
        jparse_other f 'I' _ (by decide) (by decide) (by decide) (by decide) (by decide)
          (by decide) (by decide)]
      unfold jparseNumConst
      rw [jparseNumber_not_digit _ (by decide) (by decide)]
      rfl
    · rw [show floatChars (.inf true) ++ rest
          = '-' :: ('I' :: 'n' :: 'f' :: 'i' :: 'n' :: 'i' :: 't' :: 'y' :: rest) from rfl,
        jparse_other f '-' _ (by decide) (by decide) (by decide) (by decide) (by decide)
          (by decide) (by decide)]
      unfold jparseNumConst
      rw [jparseNumber_minus_not_digit _ (by decide)]
      rfl
  | finite s m e =>
    have hnum := jparseNumber_finite s m e hok hr
    cases s
    · rw [show ((if false then ['-'] else []) : List Char)
            ++ ((if m = 0 then ['0', '.', '0'] else finiteMagChars m e) ++ rest)
          = (if m = 0 then ['0', '.', '0'] else finiteMagChars m e) ++ rest from by
        simp] at hnum
      by_cases h0 : m = 0
      · rw [if_pos h0] at hnum
        rw [show floatChars (.finite false m e) ++ rest = '0' :: ('.' :: '0' :: rest) from by
          simp [floatChars, h0]]
        rw [jparse_other f '0' _ (by decide) (by decide) (by decide) (by decide) (by decide)
          (by decide) (by decide)]
        refine jparseNumConst_of_number ?_
        rw [show ('0' :: ('.' :: '0' :: rest)) = (['0', '.', '0'] : List Char) ++ rest from
          by simp]
        exact hnum
      · rw [if_neg h0] at hnum
        obtain ⟨c, t, hct, hcd⟩ := finiteMagChars_head m e
        obtain ⟨hws, hn2, ht2, hf2, hq2, hk2, hb2, -, -, -, -⟩ := isDigit_not_special hcd
        rw [show floatChars (.finite false m e) ++ rest = c :: (t ++ rest) from by
          simp [floatChars, h0, hct]]
        rw [jparse_other f c _ hws hn2 ht2 hf2 hq2 hk2 hb2]
        refine jparseNumConst_of_number ?_
        rw [show (c :: (t ++ rest)) = finiteMagChars m e ++ rest from by simp [hct]]
        exact hnum
    · rw [show ((if true then ['-'] else []) : List Char)
            ++ ((if m = 0 then ['0', '.', '0'] else finiteMagChars m e) ++ rest)
          = '-' :: ((if m = 0 then ['0', '.', '0'] else finiteMagChars m e) ++ rest) from by
        simp] at hnum
      rw [show floatChars (.finite true m e) ++ rest
          = '-' :: ((if m = 0 then ['0', '.', '0'] else finiteMagChars m e) ++ rest) from by
        simp [floatChars]]
      rw [jparse_other f '-' _ (by decide) (by decide) (by decide) (by decide) (by decide)
        (by decide) (by decide)]
      exact jparseNumConst_of_number hnum

theorem restSafe_tail_elems (xs : List JVal) (lvl olvl : Nat) (z : List Char) :
    restSafe (jdumpTail xs lvl ++ (jws olvl ++ z)) = true := by
  cases xs with
  | nil =>
    rw [jdumpTail, List.nil_append, jws, List.cons_append, restSafe]
    decide
  | cons y ys =>
    rw [jdumpTail, List.cons_append, restSafe]
    decide

theorem restSafe_tail_members (fs : List (String × JVal)) (lvl olvl : Nat) (z : List Char) :
    restSafe (jdumpFieldsTail fs lvl ++ (jws olvl ++ z)) = true := by
  cases fs with
  | nil =>
    rw [jdumpFieldsTail, List.nil_append, jws, List.cons_append, restSafe]
    decide
  | cons kv fs =>
    rw [jdumpFieldsTail, List.cons_append, restSafe]
    decide

theorem dumpStr_length_pos (k : String) : 0 < (dumpStr k).length := by
  simp [dumpStr]

mutual

theorem rt_val : ∀ (v : JVal) (lvl fuel : Nat) (rest : List Char),
    (jdump v lvl).length < fuel → restSafe rest = true → v.okB = true →
    jparse fuel (jdump v lvl ++ rest) = some (v, rest)
  | .jnull, lvl, fuel, rest, hlen, _, _ => by
    cases fuel with
    | zero => exact absurd hlen (Nat.not_lt_zero _)
    | succ f =>
      show jparse (f + 1) ('n' :: 'u' :: 'l' :: 'l' :: rest) = some (.jnull, rest)
      simp only [jparse]
      rw [jskip_cons_not (by decide)]
      simp
  | .jbool true, lvl, fuel, rest, hlen, _, _ => by
    cases fuel with
    | zero => exact absurd hlen (Nat.not_lt_zero _)
    | succ f =>
      show jparse (f + 1) ('t' :: 'r' :: 'u' :: 'e' :: rest) = some (.jbool true, rest)
      simp only [jparse]
      rw [jskip_cons_not (by decide)]
      simp
  | .jbool false, lvl, fuel, rest, hlen, _, _ => by
    cases fuel with
    | zero => exact absurd hlen (Nat.not_lt_zero _)
    | succ f =>
      show jparse (f + 1) ('f' :: 'a' :: 'l' :: 's' :: 'e' :: rest) = some (.jbool false, rest)
      simp only [jparse]
      rw [jskip_cons_not (by decide)]
      simp
  | .jint n, lvl, fuel, rest, hlen, hrest, _ => by
    cases fuel with
    | zero => exact absurd hlen (Nat.not_lt_zero _)
    | succ f =>
      by_cases hn : n < 0
      · have harg : jdump (.jint n) lvl ++ rest = '-' :: (natChars n.natAbs ++ rest) := by
          simp [jdump, intChars, hn]
        rw [harg, jparse_other f '-' _ (by decide) (by decide) (by decide) (by decide)
          (by decide) (by decide) (by decide)]
        have hnum := jparseNumber_int n hrest
        rw [show intChars n ++ rest = '-' :: (natChars n.natAbs ++ rest) from by
          simp [intChars, hn]] at hnum
        exact jparseNumConst_of_number hnum
      · obtain ⟨c, t, hct, hcd⟩ := natChars_cons n.natAbs
        obtain ⟨hws, hn2, ht2, hf2, hq2, hk2, hb2, -, -, -, -⟩ := isDigit_not_special hcd
        have harg : jdump (.jint n) lvl ++ rest = c :: (t ++ rest) := by
          simp [jdump, intChars, hn, hct]
        rw [harg, jparse_other f c _ hws hn2 ht2 hf2 hq2 hk2 hb2]
        have hnum := jparseNumber_int n hrest
        rw [show intChars n ++ rest = c :: (t ++ rest) from by
          simp [intChars, hn, hct]] at hnum
        exact jparseNumConst_of_number hnum
  | .jfloat x, lvl, fuel, rest, hlen, hrest, hok => by
    cases fuel with
    | zero => exact absurd hlen (Nat.not_lt_zero _)
    | succ f =>
      show jparse (f + 1) (floatChars x ++ rest) = some (.jfloat x, rest)
      exact jparse_float f x hok hrest
  | .jstr s, lvl, fuel, rest, hlen, _, _ => by
    cases fuel with
    | zero => exact absurd hlen (Nat.not_lt_zero _)
    | succ f =>
      have harg : jdump (.jstr s) lvl ++ rest
          = '"' :: ((s.data.map escSeq).flatten ++ ('"' :: rest)) := by
        simp [jdump, dumpStr]
      rw [harg]
      simp only [jparse]
      rw [jskip_cons_not (by decide)]
      simp [strBody_dump]
  | .jarr [], lvl, fuel, rest, hlen, _, _ => by
    cases fuel with
    | zero => exact absurd hlen (Nat.not_lt_zero _)
    | succ f =>
      show jparse (f + 1) ('[' :: ']' :: rest) = some (.jarr [], rest)
      simp only [jparse]
      rw [jskip_cons_not (by decide)]
      simp only [show ¬(('[' : Char) = 'n') from by decide,
        show ¬(('[' : Char) = 't') from by decide, show ¬(('[' : Char) = 'f') from by decide,
        show ¬(('[' : Char) = '"') from by decide, if_neg, if_pos, if_true, if_false]
      rw [jskip_cons_not (by decide : isJWs ']' = false)]
      simp
  | .jarr (x :: xs), lvl, fuel, rest, hlen, _, hok => by
    cases fuel with
    | zero => exact absurd hlen (Nat.not_lt_zero _)
    | succ f =>
      have harg : jdump (.jarr (x :: xs)) lvl ++ rest
          = '[' :: (jws (lvl + 1) ++ (jdump x (lvl + 1)
              ++ (jdumpTail xs (lvl + 1) ++ (jws lvl ++ (']' :: rest))))) := by
        simp [jdump, List.append_assoc]
      have hL : (jdump (.jarr (x :: xs)) lvl).length
          = 1 + (jws (lvl + 1)).length + (jdump x (lvl + 1)).length
            + (jdumpTail xs (lvl + 1)).length + (jws lvl).length + 1 := by
        simp [jdump]
        ring
      have hw1 : 0 < (jws (lvl + 1)).length := by simp [jws]
      have hw2 : 0 < (jws lvl).length := by simp [jws]
      rw [harg, jparse_arr_step f x xs lvl (jws lvl ++ (']' :: rest)),
        rt_elems x xs (lvl + 1) lvl f rest (by omega) hok]
      rfl
  | .jobj [], lvl, fuel, rest, hlen, _, _ => by
    cases fuel with
    | zero => exact absurd hlen (Nat.not_lt_zero _)
    | succ f =>
      show jparse (f + 1) ('{' :: '}' :: rest) = some (.jobj [], rest)
      simp only [jparse]
      rw [jskip_cons_not (by decide)]
      simp only [show ¬(('{' : Char) = 'n') from by decide,
        show ¬(('{' : Char) = 't') from by decide, show ¬(('{' : Char) = 'f') from by decide,
        show ¬(('{' : Char) = '"') from by decide, show ¬(('{' : Char) = '[') from by decide,
        if_neg, if_pos, if_true, if_false]
      rw [jskip_cons_not (by decide : isJWs '}' = false)]
      simp
  | .jobj (kv :: fs), lvl, fuel, rest, hlen, _, hok => by
    cases fuel with
    | zero => exact absurd hlen (Nat.not_lt_zero _)
    | succ f =>
      have harg : jdump (.jobj (kv :: fs)) lvl ++ rest
          = '{' :: (jws (lvl + 1) ++ (dumpStr kv.1
              ++ (':' :: ' ' :: (jdump kv.2 (lvl + 1)
                ++ (jdumpFieldsTail fs (lvl + 1) ++ (jws lvl ++ ('}' :: rest))))))) := by
        simp [jdump, List.append_assoc]
      have hL : (jdump (.jobj (kv :: fs)) lvl).length
          = 1 + (jws (lvl + 1)).length + (dumpStr kv.1).length + 2
            + (jdump kv.2 (lvl + 1)).length + (jdumpFieldsTail fs (lvl + 1)).length
            + (jws lvl).length + 1 := by
        simp [jdump]
        ring
      have hw1 : 0 < (jws (lvl + 1)).length := by simp [jws]
      have hw2 : 0 < (jws lvl).length := by simp [jws]
      rw [harg, jparse_obj_step f lvl kv.1
        (':' :: ' ' :: (jdump kv.2 (lvl + 1)
          ++ (jdumpFieldsTail fs (lvl + 1) ++ (jws lvl ++ ('}' :: rest))))),
        rt_members kv fs (lvl + 1) lvl f rest (by omega) hok]
      rfl
termination_by v _ _ _ _ _ _ => sizeOf v
decreasing_by all_goals (simp_wf; omega)

theorem rt_elems : ∀ (x : JVal) (xs : List JVal) (lvl olvl fuel : Nat) (rest : List Char),
    (jdump x lvl).length + (jdumpTail xs lvl).length + 1 < fuel →
    JVal.okBElems (x :: xs) = true →
    jparseElems fuel (jdump x lvl ++ (jdumpTail xs lvl ++ (jws olvl ++ (']' :: rest))))
      = some (x :: xs, rest)
  | x, [], lvl, olvl, fuel, rest, hlen, hok => by
    cases fuel with
    | zero => exact absurd hlen (Nat.not_lt_zero _)
    | succ f =>
      have hparts : (x.okB) = true ∧ (JVal.okBElems []) = true := by
        have h2 : ((x.okB) && (JVal.okBElems [])) = true := hok
        rw [Bool.and_eq_true] at h2
        exact h2
      simp only [jparseElems]
      rw [rt_val x lvl f (jdumpTail [] lvl ++ (jws olvl ++ (']' :: rest))) (by omega)
        (restSafe_tail_elems [] lvl olvl _) hparts.1]
      rw [Option.some_bind]
      rw [jdumpTail, List.nil_append, jskip_wsLead _ _ (jws_all_ws olvl),
        jskip_cons_not (by decide : isJWs ']' = false)]
      simp
  | x, y :: ys, lvl, olvl, fuel, rest, hlen, hok => by
    cases fuel with
    | zero => exact absurd hlen (Nat.not_lt_zero _)
    | succ f =>
      have hparts : (x.okB) = true ∧ (JVal.okBElems (y :: ys)) = true := by
        have h2 : ((x.okB) && (JVal.okBElems (y :: ys))) = true := hok
        rw [Bool.and_eq_true] at h2
        exact h2
      have hyp : 0 < (jdump x lvl).length := jdump_length_pos x lvl
      have hw : 0 < (jws lvl).length := by simp [jws]
      have hTL : (jdumpTail (y :: ys) lvl).length
          = 1 + (jws lvl).length + (jdump y lvl).length + (jdumpTail ys lvl).length := by
        simp [jdumpTail]
        ring
      simp only [jparseElems]
      rw [rt_val x lvl f (jdumpTail (y :: ys) lvl ++ (jws olvl ++ (']' :: rest))) (by omega)
        (restSafe_tail_elems (y :: ys) lvl olvl _) hparts.1]
      rw [Option.some_bind]
      rw [jdumpTail, List.cons_append,
        jskip_cons_not (by decide : isJWs ',' = false)]
      simp only [show ((',' : Char) = ',') from rfl, if_pos, if_true]
      rw [show (jws lvl ++ jdump y lvl ++ jdumpTail ys lvl)
            ++ (jws olvl ++ (']' :: rest))
          = jws lvl ++ (jdump y lvl ++ (jdumpTail ys lvl ++ (jws olvl ++ (']' :: rest))))
        from by simp [List.append_assoc]]
      rw [jparseElems_wsLead f _ _ (jws_all_ws lvl),
        rt_elems y ys lvl olvl f rest (by omega) hparts.2]
      rfl
termination_by x xs _ _ _ _ _ _ => sizeOf x + sizeOf xs + 1
decreasing_by all_goals (simp_wf; omega)

theorem rt_members : ∀ (kv : String × JVal) (fs : List (String × JVal))
    (lvl olvl fuel : Nat) (rest : List Char),
    (dumpStr kv.1).length + (jdump kv.2 lvl).length + (jdumpFieldsTail fs lvl).length + 3 < fuel →
    JVal.okBFields (kv :: fs) = true →
    jparseMembers fuel (dumpStr kv.1
        ++ (':' :: ' ' :: (jdump kv.2 lvl ++ (jdumpFieldsTail fs lvl ++ (jws olvl ++ ('}' :: rest))))))
      = some (kv :: fs, rest)
  | (k, v), [], lvl, olvl, fuel, rest, hlen, hok => by
    cases fuel with
    | zero => exact absurd hlen (Nat.not_lt_zero _)
    | succ f =>
      have hparts : (v.okB) = true ∧ (JVal.okBFields []) = true := by
        have h2 : ((v.okB) && (JVal.okBFields [])) = true := hok
        rw [Bool.and_eq_true] at h2
        exact h2
      have hlen2 : (dumpStr k).length + (jdump v lvl).length
          + (jdumpFieldsTail ([] : List (String × JVal)) lvl).length + 3 < f + 1 := hlen
      simp only [jparseMembers]
      rw [show dumpStr k
            ++ (':' :: ' ' :: (jdump v lvl ++ (jdumpFieldsTail ([] : List (String × JVal)) lvl ++ (jws olvl ++ ('}' :: rest)))))
          = '"' :: ((k.data.map escSeq).flatten
            ++ ('"' :: (':' :: ' ' :: (jdump v lvl
              ++ (jdumpFieldsTail ([] : List (String × JVal)) lvl ++ (jws olvl ++ ('}' :: rest)))))))
        from by simp [dumpStr]]
      rw [jskip_cons_not (by decide : isJWs '"' = false)]
      simp only [show (('"' : Char) = '"') from rfl, if_pos, if_true]
      rw [strBody_dump, Option.some_bind]
      rw [jskip_cons_not (by decide : isJWs ':' = false)]
      simp only [show ((':' : Char) = ':') from rfl, if_pos, if_true]
      rw [show (' ' :: (jdump v lvl ++ (jdumpFieldsTail ([] : List (String × JVal)) lvl ++ (jws olvl ++ ('}' :: rest)))))
            = [' '] ++ (jdump v lvl ++ (jdumpFieldsTail ([] : List (String × JVal)) lvl ++ (jws olvl ++ ('}' :: rest))))
          from rfl]
      rw [jparse_wsLead f [' '] _ (by decide)]
      rw [rt_val v lvl f (jdumpFieldsTail ([] : List (String × JVal)) lvl ++ (jws olvl ++ ('}' :: rest))) (by omega)
        (restSafe_tail_members ([] : List (String × JVal)) lvl olvl _) hparts.1]
      rw [Option.some_bind]
      rw [jdumpFieldsTail, List.nil_append, jskip_wsLead _ _ (jws_all_ws olvl),
        jskip_cons_not (by decide : isJWs '}' = false)]
      simp
  | (k, v), kv2 :: fs2, lvl, olvl, fuel, rest, hlen, hok => by
    cases fuel with
    | zero => exact absurd hlen (Nat.not_lt_zero _)
    | succ f =>
      have hparts : (v.okB) = true ∧ (JVal.okBFields (kv2 :: fs2)) = true := by
        have h2 : ((v.okB) && (JVal.okBFields (kv2 :: fs2))) = true := hok
        rw [Bool.and_eq_true] at h2
        exact h2
      have hlen2 : (dumpStr k).length + (jdump v lvl).length
          + (jdumpFieldsTail (kv2 :: fs2) lvl).length + 3 < f + 1 := hlen
      simp only [jparseMembers]
      rw [show dumpStr k
            ++ (':' :: ' ' :: (jdump v lvl ++ (jdumpFieldsTail (kv2 :: fs2) lvl ++ (jws olvl ++ ('}' :: rest)))))
          = '"' :: ((k.data.map escSeq).flatten
            ++ ('"' :: (':' :: ' ' :: (jdump v lvl
              ++ (jdumpFieldsTail (kv2 :: fs2) lvl ++ (jws olvl ++ ('}' :: rest)))))))
        from by simp [dumpStr]]
      rw [jskip_cons_not (by decide : isJWs '"' = false)]
      simp only [show (('"' : Char) = '"') from rfl, if_pos, if_true]
      rw [strBody_dump, Option.some_bind]
      rw [jskip_cons_not (by decide : isJWs ':' = false)]
      simp only [show ((':' : Char) = ':') from rfl, if_pos, if_true]
      rw [show (' ' :: (jdump v lvl ++ (jdumpFieldsTail (kv2 :: fs2) lvl ++ (jws olvl ++ ('}' :: rest)))))
            = [' '] ++ (jdump v lvl ++ (jdumpFieldsTail (kv2 :: fs2) lvl ++ (jws olvl ++ ('}' :: rest))))
          from rfl]
      rw [jparse_wsLead f [' '] _ (by decide)]
      rw [rt_val v lvl f (jdumpFieldsTail (kv2 :: fs2) lvl ++ (jws olvl ++ ('}' :: rest))) (by omega)
        (restSafe_tail_members (kv2 :: fs2) lvl olvl _) hparts.1]
      rw [Option.some_bind]
      have hds : 0 < (dumpStr kv2.1).length := dumpStr_length_pos kv2.1
      have hvp : 0 < (jdump kv2.2 lvl).length := jdump_length_pos kv2.2 lvl
      have hw : 0 < (jws lvl).length := by simp [jws]
      have hFT : (jdumpFieldsTail (kv2 :: fs2) lvl).length
          = 1 + (jws lvl).length + (dumpStr kv2.1).length + 2 + (jdump kv2.2 lvl).length
            + (jdumpFieldsTail fs2 lvl).length := by
        simp [jdumpFieldsTail]
        ring
      rw [jdumpFieldsTail, List.cons_append,
        jskip_cons_not (by decide : isJWs ',' = false)]
      simp only [show ((',' : Char) = ',') from rfl, if_pos, if_true]
      rw [show (jws lvl ++ dumpStr kv2.1 ++ ':' :: ' ' :: jdump kv2.2 lvl
            ++ jdumpFieldsTail fs2 lvl) ++ (jws olvl ++ ('}' :: rest))
          = jws lvl ++ (dumpStr kv2.1 ++ (':' :: ' ' :: (jdump kv2.2 lvl
            ++ (jdumpFieldsTail fs2 lvl ++ (jws olvl ++ ('}' :: rest))))))
        from by simp [List.append_assoc]]
      have hlen3 : (dumpStr kv2.1).length + (jdump kv2.2 lvl).length
          + (jdumpFieldsTail fs2 lvl).length + 3 < f := by
        rw [hFT] at hlen2
        have h5 : 0 < (dumpStr k).length := dumpStr_length_pos k
        have h6 : 0 < (jdump v lvl).length := jdump_length_pos v lvl
        omega
      rw [jparseMembers_wsLead f _ _ (jws_all_ws lvl),
        rt_members kv2 fs2 lvl olvl f rest hlen3 hparts.2]
      rfl
termination_by kv fs _ _ _ _ _ _ => sizeOf kv + sizeOf fs + 1
decreasing_by all_goals (simp_wf; omega)

end

theorem allObjs_map (l : List PyDict) : allObjs (l.map JVal.jobj) = some l := by
  induction l with
  | nil => rfl
  | cons x l ih => simp [allObjs, ih]

theorem allStrs_map (l : List String) : allStrs (l.map JVal.jstr) = some l := by
  induction l with
  | nil => rfl
  | cons x l ih => simp [allStrs, ih]

/-! ## C4: the structured output round-trips -/

/-- C4: serializing any parsed document's dictionary — floats (modelled as
IEEE-754 binary64 values, the encodings a real `float` object carries)
included — with `json.dump(..., indent=2, ensure_ascii=False)` and reading
the output back with `json.load` reproduces the dictionary exactly, and
hence all eight fields `filename`, `file_type`, `parsed_at`, `metadata`,
`content`, `tables`, `images`, `errors` (the embedding preserves key order,
so key ordering is preserved too). Finite floats round-trip through the
shortest-repr decimal and correct rounding; non-finite ones through the
`Infinity`/`-Infinity`/`NaN` constants. -/
theorem c4_roundtrip (d : ParsedDocument) (hok : docOk d = true) :
    jloads (jdumps (toDict d)) = some (toDict d)
    ∧ fromDict (toDict d) = some d := by
  constructor
  · have h := rt_val (toDict d) 0 ((jdump (toDict d) 0).length + 1) [] (by omega) rfl hok
    rw [List.append_nil] at h
    unfold jloads jdumps
    rw [show (⟨jdump (toDict d) 0⟩ : String).length = (jdump (toDict d) 0).length from rfl,
      show (⟨jdump (toDict d) 0⟩ : String).data = jdump (toDict d) 0 from rfl, h]
    rfl
  · simp [fromDict, toDict, toDictPairs, dGet, allObjs_map, allStrs_map]

/-- C4, exercised: the concrete one-page PDF document carrying the float
page dimensions `612.0` and `-11.5` satisfies the canonical-floats
hypothesis, and its dictionary round-trips. -/
theorem c4_roundtrip_witness :
    docOk exampleFloatDoc = true
      ∧ (jloads (jdumps (toDict exampleFloatDoc)) = some (toDict exampleFloatDoc)
         ∧ fromDict (toDict exampleFloatDoc) = some exampleFloatDoc) :=
  ⟨by decide, c4_roundtrip exampleFloatDoc (by decide)⟩
